import Mathlib

/-
Verification development for the game engine in `src/game.c` of the
csse2010 asteroids project.  The engine state (base position, projectile
and asteroid lists, score/lives bookkeeping) and every public operation
(`initialise_game`, `move_base`, `fire_projectile`, `advance_projectiles`,
`advance_asteroids`) are shallowly embedded as executable Lean functions.

Modelling conventions:
 - Packed positions are `Nat` values below 256 (`(x << 4) | (y & 0x0F)`,
   stored in a `uint8_t` in C, hence the `% 256`).
 - The C arrays `asteroids[MAX_ASTEROIDS]` / `projectiles[MAX_PROJECTILES]`
   together with their counts are modelled by Lean lists holding exactly
   the live prefix; cells beyond the count are never read by the C code.
 - `random()` is modelled by a stream `rng : Nat → Nat` together with a
   cursor `k`; each C call to `random()` reads `rng k` and advances the
   cursor.  `random() % n` becomes `rng k % n`.
 - C `while` loops whose termination is by a decreasing measure are
   modelled with an explicit fuel argument; the public operations invoke
   them with fuel equal to the relevant list length, which suffices
   (proved below).
 - `int8_t` values that can be negative (`basePosition - 1`, index
   arguments, the `-1` not-found sentinel) are modelled as `Int`;
   implicit C conversions to `uint8_t` are made explicit via `toU8`.
-/

def FIELD_WIDTH : Nat := 8

def FIELD_HEIGHT : Nat := 16

/-- Modelled from the spec: `game.h` is not under `src/`, so the numeric
values of `MAX_ASTEROIDS` and `MAX_PROJECTILES` are unknown; the spec
only calls them the capacities of the two entity lists.  They are kept
as parameters of the whole development. -/
structure Config where
  maxAsteroids : Nat
  maxProjectiles : Nat
  deriving Repr, DecidableEq

/-- The C macro `GAME_POSITION(x,y) = ((x) << 4)|((y) & 0x0F)`, truncated
to `uint8_t` on storage.  For `x < 16` the bitwise or is addition of
disjoint nibbles. -/
def GAME_POSITION (x y : Nat) : Nat := (x * 16 + y % 16) % 256

/-- The C macro `GET_X_POSITION(posn) = (posn) >> 4`. -/
def GET_X_POSITION (p : Nat) : Nat := p / 16

/-- The C macro `GET_Y_POSITION(posn) = (posn) & 0x0F`. -/
def GET_Y_POSITION (p : Nat) : Nat := p % 16

/-- Implicit C conversion of an `int8_t`-valued expression to `uint8_t`. -/
def toU8 (x : Int) : Nat := (x % 256).toNat

def MOVE_LEFT : Int := 0

def MOVE_RIGHT : Int := 1

/-- The engine state: the globals of `game.c` (`basePosition`,
`projectiles`/`numProjectiles`, `asteroids`/`numAsteroids`, `paused`)
together with the external score/lives store.
Modelled from the spec: the score/lives store (`score.c`) is not under
`src/`; per spec §6 it holds a score accepting `add_to_score(delta)` and
a lives counter accepting `change_lives(delta)` / `get_lives()`. -/
structure GameState where
  basePosition : Int
  projectiles : List Nat
  asteroids : List Nat
  score : Nat
  lives : Int
  paused : Nat
  deriving Repr, DecidableEq

/-- Modelled from the spec: `add_to_score` of the external score store adds
its argument to the score. -/
def add_to_score (delta : Nat) (s : GameState) : GameState :=
  { s with score := s.score + delta }

/-- Modelled from the spec: `change_lives` of the external lives store adds
its (possibly negative) argument to the lives counter. -/
def change_lives (delta : Int) (s : GameState) : GameState :=
  { s with lives := s.lives + delta }

/-- Modelled from the spec: `get_lives` of the external lives store. -/
def get_lives (s : GameState) : Int := s.lives

/-- The linear scan shared by `asteroid_at` and `projectile_at`: first index
holding the packed position `p`, or `-1` (`int8_t` sentinel) if absent. -/
def scan_at (l : List Nat) (p : Nat) : Int :=
  match l with
  | [] => -1
  | q :: rest =>
    if q = p then 0
    else
      let r := scan_at rest p
      if r = -1 then -1 else r + 1

/-- `asteroid_at(x, y)` from game.c. -/
def asteroid_at (x y : Nat) (s : GameState) : Int :=
  scan_at s.asteroids (GAME_POSITION x y)

/-- `projectile_at(x, y)` from game.c. -/
def projectile_at (x y : Nat) (s : GameState) : Int :=
  scan_at s.projectiles (GAME_POSITION x y)

/-- `remove_asteroid(asteroidNumber)` from game.c: out-of-range indices are
a no-op, otherwise the later entries shift down by one (C shifting loop =
`List.eraseIdx`) and the count drops by one. -/
def remove_asteroid (i : Int) (s : GameState) : GameState :=
  if i < 0 ∨ (s.asteroids.length : Int) ≤ i then s
  else { s with asteroids := s.asteroids.eraseIdx i.toNat }

/-- `remove_projectile(projectileNumber)` from game.c. -/
def remove_projectile (i : Int) (s : GameState) : GameState :=
  if i < 0 ∨ (s.projectiles.length : Int) ≤ i then s
  else { s with projectiles := s.projectiles.eraseIdx i.toNat }

/-- `check_asteroid_hit(projectileIndex, asteroidHit)` from game.c: no-op
returning 0 when either index is the `-1` sentinel; otherwise removes the
projectile, removes the asteroid, adds 1 to the score (audio cue is
outside the model) and returns 1. -/
def check_asteroid_hit (projectileIndex asteroidHit : Int) (s : GameState) :
    Bool × GameState :=
  if projectileIndex = -1 ∨ asteroidHit = -1 then (false, s)
  else
    (true, add_to_score 1 (remove_asteroid asteroidHit
      (remove_projectile projectileIndex s)))

/-- `check_base_hit(x, y)` from game.c.  The `int8_t` arguments are
converted to `uint8_t` when passed to `asteroid_at`.  The `uint8_t`
return value is ignored by the only caller, so the model returns just
the state. -/
def check_base_hit (x y : Int) (s : GameState) : GameState :=
  let asteroid := asteroid_at (toU8 x) (toU8 y) s
  if asteroid = -1 then s
  else change_lives (-1) (remove_asteroid asteroid s)

/-- `check_all_base_hits()` from game.c: the four footprint cells are
checked unconditionally, in source order. -/
def check_all_base_hits (s : GameState) : GameState :=
  let s1 := check_base_hit s.basePosition 1 s
  let s2 := check_base_hit (s1.basePosition - 1) 0 s1
  let s3 := check_base_hit s2.basePosition 0 s2
  check_base_hit (s3.basePosition + 1) 0 s3

/-- `move_base(direction)` from game.c.  Returns the C `int8_t` 1/0 result
as a `Bool` together with the new state. -/
def move_base (direction : Int) (s : GameState) : Bool × GameState :=
  if (s.basePosition = 0 ∧ direction = MOVE_LEFT) ∨
      (s.basePosition = 7 ∧ direction = MOVE_RIGHT) then (false, s)
  else
    let s1 := { s with basePosition := s.basePosition + 2 * direction - 1 }
    (true, check_all_base_hits s1)

/-- `fire_projectile()` from game.c.  On success the projectile is appended
at `(basePosition, 2)` and an immediate asteroid hit at the spawn cell is
resolved (the C code tests the hit result only to decide a redraw). -/
def fire_projectile (cfg : Config) (s : GameState) : Bool × GameState :=
  if s.projectiles.length < cfg.maxProjectiles ∧
      projectile_at (toU8 s.basePosition) 2 s = -1 then
    let newProjectileNumber : Int := (s.projectiles.length : Int)
    let s1 := { s with
      projectiles := s.projectiles ++ [GAME_POSITION (toU8 s.basePosition) 2] }
    (true, (check_asteroid_hit newProjectileNumber
      (asteroid_at (toU8 s.basePosition) 2 s1) s1).2)
  else (false, s)

/-- The `while (projectileNumber < numProjectiles)` loop of
`advance_projectiles()` in game.c, with explicit fuel.  Each iteration
either removes the current projectile (off the top, or asteroid hit;
the index is not advanced) or moves it up one row and advances. -/
def projectilesLoop : Nat → Nat → GameState → GameState
  | 0, _, s => s
  | fuel + 1, projectileNumber, s =>
    if projectileNumber < s.projectiles.length then
      let x := GET_X_POSITION (s.projectiles.getD projectileNumber 0)
      let y := GET_Y_POSITION (s.projectiles.getD projectileNumber 0)
      if y + 1 = FIELD_HEIGHT then
        projectilesLoop fuel projectileNumber
          (remove_projectile (projectileNumber : Int) s)
      else
        let r := check_asteroid_hit (projectileNumber : Int)
          (asteroid_at x (y + 1) s) s
        if r.1 then projectilesLoop fuel projectileNumber r.2
        else
          projectilesLoop fuel (projectileNumber + 1)
            { s with projectiles :=
                s.projectiles.set projectileNumber (GAME_POSITION x (y + 1)) }
    else s

/-- The `do { ... } while (attempts <= 8*16)` sampling loop of
`add_asteroid_in_rows` in game.c.  The body runs once for every
`attempts` value from 0 to `8*16` inclusive, i.e. at most 129 times,
which is the fuel used by `add_asteroid_in_rows`. -/
def spawnLoop (blockedRows : Nat) (rng : Nat → Nat) :
    Nat → Nat → GameState → GameState × Nat
  | 0, k, s => (s, k)
  | fuel + 1, k, s =>
    let x := rng k % FIELD_WIDTH
    let y := blockedRows + rng (k + 1) % (FIELD_HEIGHT - blockedRows)
    if asteroid_at x y s = -1 then
      ({ s with asteroids := s.asteroids ++ [GAME_POSITION x y] }, k + 2)
    else spawnLoop blockedRows rng fuel (k + 2) s

/-- `add_asteroid_in_rows(blockedRows)` from game.c: immediate return when
the list is full, otherwise the bounded sampling loop (129 = number of
executions of a `do`-`while` body guarded by `attempts <= 8*16`). -/
def add_asteroid_in_rows (cfg : Config) (blockedRows : Nat) (rng : Nat → Nat)
    (k : Nat) (s : GameState) : GameState × Nat :=
  if s.asteroids.length = cfg.maxAsteroids then (s, k)
  else spawnLoop blockedRows rng 129 k s

/-- `add_asteroid()` from game.c. -/
def add_asteroid (cfg : Config) (rng : Nat → Nat) (k : Nat) (s : GameState) :
    GameState × Nat :=
  add_asteroid_in_rows cfg 3 rng k s

/-- The `for (i = numAsteroids; i < MAX_ASTEROIDS; i++)` loop of
`add_missing_asteroids` in game.c: the iteration count is fixed when the
loop starts. -/
def amaLoop (cfg : Config) (rng : Nat → Nat) :
    Nat → Nat → GameState → GameState × Nat
  | 0, k, s => (s, k)
  | m + 1, k, s =>
    let r := add_asteroid_in_rows cfg (FIELD_HEIGHT - 1) rng k s
    amaLoop cfg rng m r.2 r.1

/-- `add_missing_asteroids()` from game.c. -/
def add_missing_asteroids (cfg : Config) (rng : Nat → Nat) (k : Nat)
    (s : GameState) : GameState × Nat :=
  amaLoop cfg rng (cfg.maxAsteroids - s.asteroids.length) k s

/-- `advance_projectiles()` from game.c: the projectile pass (fuel
`numProjectiles` suffices, see the termination theorem) followed by
`add_missing_asteroids()`. -/
def advance_projectiles (cfg : Config) (rng : Nat → Nat) (k : Nat)
    (s : GameState) : GameState × Nat :=
  add_missing_asteroids cfg rng k (projectilesLoop s.projectiles.length 0 s)

/-- The `while (i < numAsteroids)` loop of `advance_asteroids()` in game.c,
with explicit fuel.  `new_y = y - 1 < 0` is the `y = 0` case. -/
def asteroidsLoop : Nat → Nat → GameState → GameState
  | 0, _, s => s
  | fuel + 1, i, s =>
    if i < s.asteroids.length then
      let x := GET_X_POSITION (s.asteroids.getD i 0)
      let y := GET_Y_POSITION (s.asteroids.getD i 0)
      if y = 0 then
        asteroidsLoop fuel i (remove_asteroid (i : Int) s)
      else
        let r := check_asteroid_hit (projectile_at x (y - 1) s) (i : Int) s
        if r.1 then asteroidsLoop fuel i r.2
        else
          asteroidsLoop fuel (i + 1)
            { s with asteroids := s.asteroids.set i (GAME_POSITION x (y - 1)) }
    else s

/-- `advance_asteroids()` from game.c: the asteroid pass, then
`check_all_base_hits()`, then `add_missing_asteroids()`. -/
def advance_asteroids (cfg : Config) (rng : Nat → Nat) (k : Nat)
    (s : GameState) : GameState × Nat :=
  add_missing_asteroids cfg rng k
    (check_all_base_hits (asteroidsLoop s.asteroids.length 0 s))

/-- The inner `while (j > 0 && GET_Y(asteroids[j-1]) > GET_Y(temp))` shift
loop of `sort_asteroids` in game.c, followed by `asteroids[j] = temp`.
The argument is the current value of `j`. -/
def insertFrom (l : List Nat) (temp : Nat) : Nat → List Nat
  | 0 => l.set 0 temp
  | j + 1 =>
    if GET_Y_POSITION (l.getD j 0) > GET_Y_POSITION temp then
      insertFrom (l.set (j + 1) (l.getD j 0)) temp j
    else l.set (j + 1) temp

/-- The outer `for (i = 1; i < numAsteroids; i++)` loop of
`sort_asteroids`, with fuel (the list length suffices). -/
def sortIter : Nat → Nat → List Nat → List Nat
  | 0, _, l => l
  | fuel + 1, i, l =>
    if i < l.length then sortIter fuel (i + 1) (insertFrom l (l.getD i 0) i)
    else l

/-- `sort_asteroids()` from game.c: insertion sort of the asteroid list by
non-decreasing y. -/
def sort_asteroids (s : GameState) : GameState :=
  { s with asteroids := sortIter s.asteroids.length 1 s.asteroids }

/-- The `for (i = 0; i < MAX_ASTEROIDS; i++) add_asteroid();` loop of
`initialise_game` in game.c. -/
def initLoop (cfg : Config) (rng : Nat → Nat) :
    Nat → Nat → GameState → GameState × Nat
  | 0, k, s => (s, k)
  | m + 1, k, s =>
    let r := add_asteroid cfg rng k s
    initLoop cfg rng m r.2 r.1

/-- `initialise_game()` from game.c: base recentred, lists cleared, pause
flag cleared, `MAX_ASTEROIDS` spawn attempts in rows `y ≥ 3`, then the
asteroid list is insertion sorted by y.  Score and lives live in the
external store and are not touched here. -/
def initialise_game (cfg : Config) (rng : Nat → Nat) (k : Nat)
    (s : GameState) : GameState × Nat :=
  let s0 : GameState :=
    { s with
      basePosition := 3
      projectiles := []
      asteroids := []
      paused := 0 }
  let r := initLoop cfg rng cfg.maxAsteroids k s0
  (sort_asteroids r.1, r.2)

/-- `is_game_over()` from game.c: `get_lives() == 0`. -/
def is_game_over (s : GameState) : Bool := get_lives s = 0

/-- `set_paused(pause)` from game.c. -/
def set_paused (pause : Nat) (s : GameState) : GameState :=
  { s with paused := pause }

/-- `is_paused()` from game.c. -/
def is_paused (s : GameState) : Nat := s.paused

/-- The reachable states of the engine: any state produced by
`initialise_game`, followed by any sequence of the public operations
(`move_base` with a `MOVE_LEFT`/`MOVE_RIGHT` argument, `fire_projectile`,
`advance_projectiles`, `advance_asteroids`), with arbitrary RNG streams. -/
inductive Reachable (cfg : Config) : GameState → Prop
  | init (rng : Nat → Nat) (k : Nat) (s0 : GameState) :
      Reachable cfg (initialise_game cfg rng k s0).1
  | move {s : GameState} (d : Int) :
      Reachable cfg s → d = MOVE_LEFT ∨ d = MOVE_RIGHT →
      Reachable cfg (move_base d s).2
  | fire {s : GameState} :
      Reachable cfg s → Reachable cfg (fire_projectile cfg s).2
  | advP {s : GameState} (rng : Nat → Nat) (k : Nat) :
      Reachable cfg s → Reachable cfg (advance_projectiles cfg rng k s).1
  | advA {s : GameState} (rng : Nat → Nat) (k : Nat) :
      Reachable cfg s → Reachable cfg (advance_asteroids cfg rng k s).1

/-- Non-decreasing y order on a packed-position list. -/
def SortedY (l : List Nat) : Prop :=
  l.Pairwise (fun a b => GET_Y_POSITION a ≤ GET_Y_POSITION b)

/-- Every packed position in the list fits in a `uint8_t`. -/
def U8List (l : List Nat) : Prop := ∀ p ∈ l, p < 256

/-- The state invariant maintained by every public operation: the asteroid
list is sorted by non-decreasing y, both lists are duplicate free, all
packed positions fit in a byte, and the base centre is on the field. -/
def Wf (s : GameState) : Prop :=
  SortedY s.asteroids ∧ s.asteroids.Nodup ∧ s.projectiles.Nodup ∧
    U8List s.asteroids ∧ U8List s.projectiles ∧
    0 ≤ s.basePosition ∧ s.basePosition ≤ 7

/- ### Basic lemmas about the embedded operations -/

@[simp] theorem remove_asteroid_projectiles (i : Int) (s : GameState) :
    (remove_asteroid i s).projectiles = s.projectiles := by
  unfold remove_asteroid; split <;> rfl

@[simp] theorem remove_asteroid_basePosition (i : Int) (s : GameState) :
    (remove_asteroid i s).basePosition = s.basePosition := by
  unfold remove_asteroid; split <;> rfl

@[simp] theorem remove_asteroid_score (i : Int) (s : GameState) :
    (remove_asteroid i s).score = s.score := by
  unfold remove_asteroid; split <;> rfl

@[simp] theorem remove_asteroid_lives (i : Int) (s : GameState) :
    (remove_asteroid i s).lives = s.lives := by
  unfold remove_asteroid; split <;> rfl

@[simp] theorem remove_projectile_asteroids (i : Int) (s : GameState) :
    (remove_projectile i s).asteroids = s.asteroids := by
  unfold remove_projectile; split <;> rfl

@[simp] theorem remove_projectile_basePosition (i : Int) (s : GameState) :
    (remove_projectile i s).basePosition = s.basePosition := by
  unfold remove_projectile; split <;> rfl

@[simp] theorem remove_projectile_score (i : Int) (s : GameState) :
    (remove_projectile i s).score = s.score := by
  unfold remove_projectile; split <;> rfl

@[simp] theorem remove_projectile_lives (i : Int) (s : GameState) :
    (remove_projectile i s).lives = s.lives := by
  unfold remove_projectile; split <;> rfl

theorem remove_asteroid_sublist (i : Int) (s : GameState) :
    (remove_asteroid i s).asteroids.Sublist s.asteroids := by
  unfold remove_asteroid; split
  · exact List.Sublist.refl _
  · exact List.eraseIdx_sublist _ _

theorem remove_projectile_sublist (i : Int) (s : GameState) :
    (remove_projectile i s).projectiles.Sublist s.projectiles := by
  unfold remove_projectile; split
  · exact List.Sublist.refl _
  · exact List.eraseIdx_sublist _ _

/-- Characterisation of the shared scan: either the sentinel with the
position absent, or a valid index whose `eraseIdx` is `List.erase` of the
first occurrence. -/
theorem scan_at_spec (l : List Nat) (p : Nat) :
    (scan_at l p = -1 ∧ p ∉ l) ∨
    (0 ≤ scan_at l p ∧ scan_at l p < (l.length : Int) ∧ p ∈ l ∧
      l.eraseIdx (scan_at l p).toNat = l.erase p) := by
  induction l with
  | nil => left; simp [scan_at]
  | cons q rest ih =>
    by_cases hq : q = p
    · right
      subst hq
      simp [scan_at]
    · rcases ih with ⟨h1, h2⟩ | ⟨h0, h1, h2, h3⟩
      · left
        refine ⟨by simp [scan_at, hq, h1], ?_⟩
        simp only [List.mem_cons, not_or]
        exact ⟨fun hpq => hq hpq.symm, h2⟩
      · right
        have hne : scan_at rest p ≠ -1 := by omega
        have hsc : scan_at (q :: rest) p = scan_at rest p + 1 := by
          simp [scan_at, hq, hne]
        have ht : (scan_at rest p + 1).toNat = (scan_at rest p).toNat + 1 := by
          omega
        refine ⟨by omega, ?_, by simp [h2], ?_⟩
        · rw [hsc]; simp only [List.length_cons]; push_cast; omega
        · rw [hsc, ht, List.eraseIdx_cons_succ, h3, List.erase_cons_tail]
          simp [hq]

theorem scan_at_neg_iff (l : List Nat) (p : Nat) :
    scan_at l p = -1 ↔ p ∉ l := by
  rcases scan_at_spec l p with ⟨h1, h2⟩ | ⟨h0, h1, h2, h3⟩
  · simp [h1, h2]
  · constructor
    · intro h; omega
    · intro h; exact absurd h2 h

theorem remove_asteroid_scan (s : GameState) (x y : Nat) :
    remove_asteroid (asteroid_at x y s) s =
      { s with asteroids := s.asteroids.erase (GAME_POSITION x y) } := by
  rcases scan_at_spec s.asteroids (GAME_POSITION x y) with ⟨h1, h2⟩ |
    ⟨h0, h1, h2, h3⟩
  · rw [List.erase_of_not_mem h2]
    simp [remove_asteroid, asteroid_at, h1]
  · unfold remove_asteroid asteroid_at
    rw [if_neg (by omega), h3]

theorem remove_projectile_scan (s : GameState) (x y : Nat) :
    remove_projectile (projectile_at x y s) s =
      { s with projectiles := s.projectiles.erase (GAME_POSITION x y) } := by
  rcases scan_at_spec s.projectiles (GAME_POSITION x y) with ⟨h1, h2⟩ |
    ⟨h0, h1, h2, h3⟩
  · rw [List.erase_of_not_mem h2]
    simp [remove_projectile, projectile_at, h1]
  · unfold remove_projectile projectile_at
    rw [if_neg (by omega), h3]

/-- `check_base_hit` rewritten in terms of membership and `List.erase`. -/
theorem check_base_hit_eq (x y : Int) (s : GameState) :
    check_base_hit x y s =
      if GAME_POSITION (toU8 x) (toU8 y) ∈ s.asteroids then
        change_lives (-1)
          { s with asteroids :=
              s.asteroids.erase (GAME_POSITION (toU8 x) (toU8 y)) }
      else s := by
  unfold check_base_hit
  by_cases hmem : GAME_POSITION (toU8 x) (toU8 y) ∈ s.asteroids
  · have hne : asteroid_at (toU8 x) (toU8 y) s ≠ -1 := by
      unfold asteroid_at
      rw [Ne, scan_at_neg_iff]
      simpa using hmem
    rw [if_pos hmem, if_neg hne, remove_asteroid_scan]
  · have he : asteroid_at (toU8 x) (toU8 y) s = -1 := by
      unfold asteroid_at
      rw [scan_at_neg_iff]
      simpa using hmem
    rw [if_neg hmem, if_pos he]

theorem remove_projectile_length_of_lt {i : Nat} {s : GameState}
    (h : i < s.projectiles.length) :
    (remove_projectile (i : Int) s).projectiles.length =
      s.projectiles.length - 1 := by
  unfold remove_projectile
  rw [if_neg (by omega)]
  rw [List.length_eraseIdx]
  simp [h]

theorem remove_asteroid_length_of_lt {i : Nat} {s : GameState}
    (h : i < s.asteroids.length) :
    (remove_asteroid (i : Int) s).asteroids.length =
      s.asteroids.length - 1 := by
  unfold remove_asteroid
  rw [if_neg (by omega)]
  rw [List.length_eraseIdx]
  simp [h]

/-- `check_asteroid_hit` either rejects a sentinel index and leaves the
state alone, or removes the projectile, removes the asteroid and scores. -/
theorem check_asteroid_hit_cases (pi ai : Int) (s : GameState) :
    (check_asteroid_hit pi ai s = (false, s) ∧ (pi = -1 ∨ ai = -1)) ∨
    (check_asteroid_hit pi ai s =
        (true, add_to_score 1 (remove_asteroid ai (remove_projectile pi s))) ∧
      pi ≠ -1 ∧ ai ≠ -1) := by
  unfold check_asteroid_hit
  by_cases h : pi = -1 ∨ ai = -1
  · left; rw [if_pos h]; exact ⟨rfl, h⟩
  · right
    rw [if_neg h]
    push_neg at h
    exact ⟨rfl, h⟩

/- ### Claim C9: index-based removal semantics -/

/-- C9.  For every state and index `i`: out-of-range removal is a no-op on
the whole state; in-range removal (`remove_asteroid` resp.
`remove_projectile`) keeps elements below `i`, shifts every element above
`i` down by one, and decreases the count by exactly one. -/
theorem claim9_remove_index_semantics (s : GameState) (i : Int) :
    ((i < 0 ∨ (s.asteroids.length : Int) ≤ i) → remove_asteroid i s = s) ∧
    ((i < 0 ∨ (s.projectiles.length : Int) ≤ i) → remove_projectile i s = s) ∧
    (0 ≤ i → i < (s.asteroids.length : Int) →
      (remove_asteroid i s).asteroids.length + 1 = s.asteroids.length ∧
      (∀ j : Nat, (j : Int) < i →
        (remove_asteroid i s).asteroids[j]? = s.asteroids[j]?) ∧
      (∀ j : Nat, i ≤ (j : Int) →
        (remove_asteroid i s).asteroids[j]? = s.asteroids[j + 1]?)) ∧
    (0 ≤ i → i < (s.projectiles.length : Int) →
      (remove_projectile i s).projectiles.length + 1 =
        s.projectiles.length ∧
      (∀ j : Nat, (j : Int) < i →
        (remove_projectile i s).projectiles[j]? = s.projectiles[j]?) ∧
      (∀ j : Nat, i ≤ (j : Int) →
        (remove_projectile i s).projectiles[j]? = s.projectiles[j + 1]?)) := by
  refine ⟨fun h => ?_, fun h => ?_, fun h0 h1 => ?_, fun h0 h1 => ?_⟩
  · unfold remove_asteroid; rw [if_pos h]
  · unfold remove_projectile; rw [if_pos h]
  · unfold remove_asteroid
    rw [if_neg (by omega)]
    refine ⟨by rw [List.length_eraseIdx, if_pos (by omega)]; omega,
      fun j hj => ?_, fun j hj => ?_⟩
    · simp only [List.getElem?_eraseIdx]
      rw [if_pos (by omega)]
    · simp only [List.getElem?_eraseIdx]
      rw [if_neg (by omega)]
  · unfold remove_projectile
    rw [if_neg (by omega)]
    refine ⟨by rw [List.length_eraseIdx, if_pos (by omega)]; omega,
      fun j hj => ?_,
      fun j hj => ?_⟩
    · simp only [List.getElem?_eraseIdx]
      rw [if_pos (by omega)]
    · simp only [List.getElem?_eraseIdx]
      rw [if_neg (by omega)]

/-- Witness for C9: a concrete two-asteroid state; removal at index 5 and
index -1 are no-ops, removal at index 0 shifts index 1 down and shrinks
the count. -/
theorem claim9_remove_index_semantics_witness :
    remove_asteroid 5 ⟨3, [32], [17, 33], 0, 3, 0⟩ =
      ⟨3, [32], [17, 33], 0, 3, 0⟩ ∧
    remove_projectile (-1) ⟨3, [32], [17, 33], 0, 3, 0⟩ =
      ⟨3, [32], [17, 33], 0, 3, 0⟩ ∧
    (remove_asteroid 0 ⟨3, [32], [17, 33], 0, 3, 0⟩).asteroids.length + 1 =
      2 ∧
    (remove_asteroid 0 ⟨3, [32], [17, 33], 0, 3, 0⟩).asteroids[0]? =
      some 33 :=
  ⟨(claim9_remove_index_semantics ⟨3, [32], [17, 33], 0, 3, 0⟩ 5).1
      (by decide),
   (claim9_remove_index_semantics ⟨3, [32], [17, 33], 0, 3, 0⟩ (-1)).2.1
      (by decide),
   ((claim9_remove_index_semantics ⟨3, [32], [17, 33], 0, 3, 0⟩ 0).2.2.1
      (by decide) (by decide)).1,
   by
    rw [((claim9_remove_index_semantics ⟨3, [32], [17, 33], 0, 3, 0⟩ 0).2.2.1
      (by decide) (by decide)).2.2 0 (by decide)]
    decide⟩

theorem hit_projectiles_length {pi : Nat} {ai : Int} {s : GameState}
    (hi : pi < s.projectiles.length) :
    (add_to_score 1 (remove_asteroid ai
      (remove_projectile (pi : Int) s))).projectiles.length =
      s.projectiles.length - 1 := by
  show (remove_asteroid ai
    (remove_projectile (pi : Int) s)).projectiles.length = _
  rw [remove_asteroid_projectiles, remove_projectile_length_of_lt hi]

theorem hit_asteroids_length {ai : Nat} {pi : Int} {s : GameState}
    (hi : ai < s.asteroids.length) :
    (add_to_score 1 (remove_asteroid (ai : Int)
      (remove_projectile pi s))).asteroids.length =
      s.asteroids.length - 1 := by
  show (remove_asteroid (ai : Int)
    (remove_projectile pi s)).asteroids.length = _
  rw [remove_asteroid_length_of_lt (by rw [remove_projectile_asteroids]; exact hi),
    remove_projectile_asteroids]

theorem projectilesLoop_exit (g i : Nat) (s : GameState)
    (h : s.projectiles.length ≤ i) : projectilesLoop g i s = s := by
  cases g with
  | zero => rfl
  | succ g => rw [projectilesLoop, if_neg (by omega)]

theorem asteroidsLoop_exit (g i : Nat) (s : GameState)
    (h : s.asteroids.length ≤ i) : asteroidsLoop g i s = s := by
  cases g with
  | zero => rfl
  | succ g => rw [asteroidsLoop, if_neg (by omega)]

/-- Fuel insensitivity of the projectile pass: any fuel at least the value
of the loop measure `numProjectiles - projectileNumber` gives the same
result, because every iteration either advances the index or removes a
projectile. -/
theorem projectilesLoop_fuel : ∀ (f g i : Nat) (s : GameState),
    s.projectiles.length - i ≤ f → s.projectiles.length - i ≤ g →
    projectilesLoop f i s = projectilesLoop g i s := by
  intro f
  induction f with
  | zero =>
    intro g i s hf hg
    rw [projectilesLoop_exit 0 i s (by omega),
      projectilesLoop_exit g i s (by omega)]
  | succ f ih =>
    intro g i s hf hg
    by_cases hi : i < s.projectiles.length
    · cases g with
      | zero => omega
      | succ g =>
        rw [projectilesLoop, projectilesLoop, if_pos hi, if_pos hi]
        dsimp only
        by_cases hy : GET_Y_POSITION (s.projectiles.getD i 0) + 1 =
          FIELD_HEIGHT
        · rw [if_pos hy, if_pos hy]
          exact ih g i _
            (by rw [remove_projectile_length_of_lt hi]; omega)
            (by rw [remove_projectile_length_of_lt hi]; omega)
        · rw [if_neg hy, if_neg hy]
          rcases check_asteroid_hit_cases (i : Int)
              (asteroid_at (GET_X_POSITION (s.projectiles.getD i 0))
                (GET_Y_POSITION (s.projectiles.getD i 0) + 1) s) s with
            ⟨hc, _⟩ | ⟨hc, _⟩
          · rw [hc]
            simp only [Bool.false_eq_true, if_false]
            exact ih g (i + 1) _ (by simp; omega) (by simp; omega)
          · rw [hc]
            simp only [if_true]
            exact ih g i _ (by rw [hit_projectiles_length hi]; omega)
              (by rw [hit_projectiles_length hi]; omega)
    · rw [projectilesLoop_exit (f + 1) i s (by omega),
        projectilesLoop_exit g i s (by omega)]

/-- Fuel insensitivity of the asteroid pass, by the same measure
argument. -/
theorem asteroidsLoop_fuel : ∀ (f g i : Nat) (s : GameState),
    s.asteroids.length - i ≤ f → s.asteroids.length - i ≤ g →
    asteroidsLoop f i s = asteroidsLoop g i s := by
  intro f
  induction f with
  | zero =>
    intro g i s hf hg
    rw [asteroidsLoop_exit 0 i s (by omega),
      asteroidsLoop_exit g i s (by omega)]
  | succ f ih =>
    intro g i s hf hg
    by_cases hi : i < s.asteroids.length
    · cases g with
      | zero => omega
      | succ g =>
        rw [asteroidsLoop, asteroidsLoop, if_pos hi, if_pos hi]
        dsimp only
        by_cases hy : GET_Y_POSITION (s.asteroids.getD i 0) = 0
        · rw [if_pos hy, if_pos hy]
          exact ih g i _
            (by rw [remove_asteroid_length_of_lt hi]; omega)
            (by rw [remove_asteroid_length_of_lt hi]; omega)
        · rw [if_neg hy, if_neg hy]
          rcases check_asteroid_hit_cases
              (projectile_at (GET_X_POSITION (s.asteroids.getD i 0))
                (GET_Y_POSITION (s.asteroids.getD i 0) - 1) s) (i : Int) s with
            ⟨hc, _⟩ | ⟨hc, _⟩
          · rw [hc]
            simp only [Bool.false_eq_true, if_false]
            exact ih g (i + 1) _ (by simp; omega) (by simp; omega)
          · rw [hc]
            simp only [if_true]
            exact ih g i _ (by rw [hit_asteroids_length hi]; omega)
              (by rw [hit_asteroids_length hi]; omega)
    · rw [asteroidsLoop_exit (f + 1) i s (by omega),
        asteroidsLoop_exit g i s (by omega)]

/- ### Claim C10: termination of the advance loops -/

/-- C10.  Both advance loops terminate: the loop measure
`count - index` bounds the number of iterations, so any fuel of at least
`numProjectiles` (resp. `numAsteroids`) — in particular the fuel the
public operations use — produces the same, stable result. -/
theorem claim10_advance_loops_terminate (s : GameState) (f g : Nat) :
    (s.projectiles.length ≤ f → s.projectiles.length ≤ g →
      projectilesLoop f 0 s = projectilesLoop g 0 s) ∧
    (s.asteroids.length ≤ f → s.asteroids.length ≤ g →
      asteroidsLoop f 0 s = asteroidsLoop g 0 s) :=
  ⟨fun hf hg => projectilesLoop_fuel f g 0 s (by omega) (by omega),
   fun hf hg => asteroidsLoop_fuel f g 0 s (by omega) (by omega)⟩

/-- Witness for C10: with two projectiles (one leaving the field) and one
asteroid, any fuel of at least two yields the fixed result of the pass. -/
theorem claim10_advance_loops_terminate_witness :
    projectilesLoop 2 0 ⟨3, [31, 66], [50], 0, 3, 0⟩ =
      projectilesLoop 900 0 ⟨3, [31, 66], [50], 0, 3, 0⟩ ∧
    asteroidsLoop 1 0 ⟨3, [31, 66], [50], 0, 3, 0⟩ =
      asteroidsLoop 77 0 ⟨3, [31, 66], [50], 0, 3, 0⟩ :=
  ⟨(claim10_advance_loops_terminate ⟨3, [31, 66], [50], 0, 3, 0⟩ 2 900).1
      (by decide) (by decide),
   (claim10_advance_loops_terminate ⟨3, [31, 66], [50], 0, 3, 0⟩ 1 77).2
      (by decide) (by decide)⟩

theorem check_base_hit_basePosition (x y : Int) (s : GameState) :
    (check_base_hit x y s).basePosition = s.basePosition := by
  rw [check_base_hit_eq]; split <;> rfl

theorem check_all_base_hits_basePosition (s : GameState) :
    (check_all_base_hits s).basePosition = s.basePosition := by
  unfold check_all_base_hits
  simp only [check_base_hit_basePosition]

/- ### Claim C7: base movement boundary behaviour -/

/-- C7.  Starting from a base position on the field, `move_base` fails
(returning `false` and leaving the whole state untouched) exactly at the
two boundary cases, and otherwise succeeds, moving the base centre by
exactly `±1` and keeping it within `[0, FIELD_WIDTH - 1]`. -/
theorem claim7_move_base_boundary (s : GameState) (d : Int)
    (hd : d = MOVE_LEFT ∨ d = MOVE_RIGHT) (h0 : 0 ≤ s.basePosition)
    (h7 : s.basePosition ≤ (FIELD_WIDTH : Int) - 1) :
    ((move_base d s).1 = false ↔
      (s.basePosition = 0 ∧ d = MOVE_LEFT) ∨
      (s.basePosition = (FIELD_WIDTH : Int) - 1 ∧ d = MOVE_RIGHT)) ∧
    ((move_base d s).1 = false → (move_base d s).2 = s) ∧
    ((move_base d s).1 = true →
      (move_base d s).2.basePosition = s.basePosition + (2 * d - 1) ∧
      0 ≤ (move_base d s).2.basePosition ∧
      (move_base d s).2.basePosition ≤ (FIELD_WIDTH : Int) - 1) := by
  have hw : (FIELD_WIDTH : Int) - 1 = 7 := by decide
  rw [hw] at h7 ⊢
  unfold move_base
  by_cases hb : (s.basePosition = 0 ∧ d = MOVE_LEFT) ∨
      (s.basePosition = 7 ∧ d = MOVE_RIGHT)
  · rw [if_pos hb]
    exact ⟨by simpa using hb, fun _ => rfl, fun h => by simp at h⟩
  · rw [if_neg hb]
    refine ⟨by simpa using hb, fun h => by simp at h, fun _ => ?_⟩
    dsimp only
    simp only [check_all_base_hits_basePosition]
    simp only [MOVE_LEFT, MOVE_RIGHT] at hd hb
    rcases hd with h | h <;> subst h <;> simp at hb <;>
      exact ⟨by omega, by omega, by omega⟩

/-- Witness for C7: at base position 0 a left move is rejected with no
state change; a right move lands on 1. -/
theorem claim7_move_base_boundary_witness :
    (move_base 0 ⟨0, [], [], 0, 3, 0⟩).2 = ⟨0, [], [], 0, 3, 0⟩ ∧
    (move_base 1 ⟨0, [], [], 0, 3, 0⟩).2.basePosition = 0 + (2 * 1 - 1) :=
  ⟨(claim7_move_base_boundary ⟨0, [], [], 0, 3, 0⟩ 0 (Or.inl rfl)
      (by decide) (by decide)).2.1 (by decide),
   ((claim7_move_base_boundary ⟨0, [], [], 0, 3, 0⟩ 1 (Or.inr rfl)
      (by decide) (by decide)).2.2 (by decide)).1⟩

/- ### Claim C8: firing success condition -/

/-- C8.  `fire_projectile` returns `true` exactly when the projectile list
is below capacity and no projectile occupies the spawn cell
`(basePosition, 2)`; when it returns `false` the state is unchanged. -/
theorem claim8_fire_success_condition (cfg : Config) (s : GameState) :
    ((fire_projectile cfg s).1 = true ↔
      s.projectiles.length < cfg.maxProjectiles ∧
      projectile_at (toU8 s.basePosition) 2 s = -1) ∧
    ((fire_projectile cfg s).1 = false → (fire_projectile cfg s).2 = s) := by
  unfold fire_projectile
  by_cases h : s.projectiles.length < cfg.maxProjectiles ∧
      projectile_at (toU8 s.basePosition) 2 s = -1
  · rw [if_pos h]
    exact ⟨by simpa using h, fun hf => by simp at hf⟩
  · rw [if_neg h]
    exact ⟨by simpa using h, fun _ => rfl⟩

/-- Witness for C8 on a concrete full-capacity state: firing is rejected
and the state is unchanged. -/
theorem claim8_fire_success_condition_witness :
    ((fire_projectile ⟨4, 1⟩ ⟨3, [50], [], 0, 3, 0⟩).1 = true ↔
      (1 : Nat) < 1 ∧
      projectile_at (toU8 3) 2 ⟨3, [50], [], 0, 3, 0⟩ = -1) ∧
    ((fire_projectile ⟨4, 1⟩ ⟨3, [50], [], 0, 3, 0⟩).1 = false →
      (fire_projectile ⟨4, 1⟩ ⟨3, [50], [], 0, 3, 0⟩).2 =
        ⟨3, [50], [], 0, 3, 0⟩) :=
  claim8_fire_success_condition ⟨4, 1⟩ ⟨3, [50], [], 0, 3, 0⟩

/- ### Claim C5: immediate hit on firing into an adjacent asteroid -/

/-- C5.  From a state with the base at 3, no projectiles, and exactly one
asteroid at `(3, 2)`, `fire_projectile` fires (returns `true`), resolves
the hit immediately — asteroid gone, no live projectile — and adds
exactly 1 to the score. -/
theorem claim5_fire_immediate_hit (cfg : Config) (sc : Nat) (lv : Int)
    (pa : Nat) (hcap : 1 ≤ cfg.maxProjectiles) :
    fire_projectile cfg ⟨3, [], [GAME_POSITION 3 2], sc, lv, pa⟩ =
      (true, ⟨3, [], [], sc + 1, lv, pa⟩) := by
  unfold fire_projectile
  rw [if_pos ⟨by simpa using hcap, rfl⟩]
  rfl

/-- Witness for C5 at a concrete capacity, score and lives. -/
theorem claim5_fire_immediate_hit_witness :
    fire_projectile ⟨8, 4⟩ ⟨3, [], [GAME_POSITION 3 2], 10, 2, 0⟩ =
      (true, ⟨3, [], [], 10 + 1, 2, 0⟩) :=
  claim5_fire_immediate_hit ⟨8, 4⟩ 10 2 0 (by decide)

/-- On a duplicate-free asteroid list, a single base-hit check removes
exactly the asteroid at its cell (if any) and charges one life for it. -/
theorem check_base_hit_filter (x y : Int) (s : GameState)
    (h : s.asteroids.Nodup) :
    check_base_hit x y s =
      { s with
        asteroids := s.asteroids.filter
          (fun p => p != GAME_POSITION (toU8 x) (toU8 y)),
        lives := s.lives -
          (if GAME_POSITION (toU8 x) (toU8 y) ∈ s.asteroids then 1
            else 0) } := by
  obtain ⟨bp, pr, l, sc, lv, pa⟩ := s
  rw [check_base_hit_eq]
  by_cases hm : GAME_POSITION (toU8 x) (toU8 y) ∈ l
  · rw [if_pos hm, if_pos hm]
    unfold change_lives
    simp only [GameState.mk.injEq, true_and, and_true]
    constructor
    · exact List.Nodup.erase_eq_filter h _
    · omega
  · rw [if_neg hm, if_neg hm]
    simp only [GameState.mk.injEq, true_and, and_true]
    constructor
    · rw [List.filter_eq_self.mpr]
      intro a ha
      simp only [bne_iff_ne, ne_eq]
      intro hac
      exact hm (hac ▸ ha)
    · omega

/-- The four footprint cells of the base are pairwise distinct packed
positions, for every (integer) base position. -/
theorem base_cells_distinct (bp : Int) :
    GAME_POSITION (toU8 (bp - 1)) (toU8 0) ≠
      GAME_POSITION (toU8 bp) (toU8 1) ∧
    GAME_POSITION (toU8 bp) (toU8 0) ≠
      GAME_POSITION (toU8 bp) (toU8 1) ∧
    GAME_POSITION (toU8 (bp + 1)) (toU8 0) ≠
      GAME_POSITION (toU8 bp) (toU8 1) ∧
    GAME_POSITION (toU8 bp) (toU8 0) ≠
      GAME_POSITION (toU8 (bp - 1)) (toU8 0) ∧
    GAME_POSITION (toU8 (bp + 1)) (toU8 0) ≠
      GAME_POSITION (toU8 (bp - 1)) (toU8 0) ∧
    GAME_POSITION (toU8 (bp + 1)) (toU8 0) ≠
      GAME_POSITION (toU8 bp) (toU8 0) := by
  simp only [GAME_POSITION, toU8]
  omega

/- ### Claim C6: base-hit resolution over the whole footprint -/

/-- C6.  `check_all_base_hits` checks all four footprint cells
unconditionally and independently: exactly the asteroids sitting on
footprint cells are removed, and lives drop by one for each such hit, so
`k` simultaneous hits cost `k` lives and remove `k` asteroids.  Base
position, projectiles and score are untouched. -/
theorem claim6_base_hits_footprint (s : GameState)
    (hnd : s.asteroids.Nodup) :
    check_all_base_hits s =
      { s with
        asteroids := s.asteroids.filter (fun p =>
          p ∉ [GAME_POSITION (toU8 s.basePosition) (toU8 1),
               GAME_POSITION (toU8 (s.basePosition - 1)) (toU8 0),
               GAME_POSITION (toU8 s.basePosition) (toU8 0),
               GAME_POSITION (toU8 (s.basePosition + 1)) (toU8 0)]),
        lives := s.lives -
          ((if GAME_POSITION (toU8 s.basePosition) (toU8 1) ∈ s.asteroids
              then 1 else 0) +
           (if GAME_POSITION (toU8 (s.basePosition - 1)) (toU8 0) ∈
              s.asteroids then 1 else 0) +
           (if GAME_POSITION (toU8 s.basePosition) (toU8 0) ∈ s.asteroids
              then 1 else 0) +
           (if GAME_POSITION (toU8 (s.basePosition + 1)) (toU8 0) ∈
              s.asteroids then 1 else 0)) } := by
  obtain ⟨bp, pr, l, sc, lv, pa⟩ := s
  obtain ⟨d21, d31, d41, d32, d42, d43⟩ := base_cells_distinct bp
  unfold check_all_base_hits
  dsimp only
  rw [check_base_hit_filter bp 1 _ hnd]
  dsimp only
  have h2 := check_base_hit_filter (bp - 1) 0
    (⟨bp, pr, List.filter (fun p => p != GAME_POSITION (toU8 bp) (toU8 1)) l, sc, lv - (if GAME_POSITION (toU8 bp) (toU8 1) ∈ l then (1 : Int) else 0), pa⟩ : GameState) (List.Nodup.filter _ hnd)
  dsimp only at h2
  rw [h2]
  dsimp only
  have h3 := check_base_hit_filter bp 0
    (⟨bp, pr, List.filter (fun p => p != GAME_POSITION (toU8 (bp - 1)) (toU8 0)) (List.filter (fun p => p != GAME_POSITION (toU8 bp) (toU8 1)) l), sc, lv - (if GAME_POSITION (toU8 bp) (toU8 1) ∈ l then (1 : Int) else 0) - (if GAME_POSITION (toU8 (bp - 1)) (toU8 0) ∈ List.filter (fun p => p != GAME_POSITION (toU8 bp) (toU8 1)) l then (1 : Int) else 0), pa⟩ : GameState) (List.Nodup.filter _ (List.Nodup.filter _ hnd))
  dsimp only at h3
  rw [h3]
  dsimp only
  have h4 := check_base_hit_filter (bp + 1) 0
    (⟨bp, pr, List.filter (fun p => p != GAME_POSITION (toU8 bp) (toU8 0)) (List.filter (fun p => p != GAME_POSITION (toU8 (bp - 1)) (toU8 0)) (List.filter (fun p => p != GAME_POSITION (toU8 bp) (toU8 1)) l)), sc, lv - (if GAME_POSITION (toU8 bp) (toU8 1) ∈ l then (1 : Int) else 0) - (if GAME_POSITION (toU8 (bp - 1)) (toU8 0) ∈ List.filter (fun p => p != GAME_POSITION (toU8 bp) (toU8 1)) l then (1 : Int) else 0) - (if GAME_POSITION (toU8 bp) (toU8 0) ∈ List.filter (fun p => p != GAME_POSITION (toU8 (bp - 1)) (toU8 0)) (List.filter (fun p => p != GAME_POSITION (toU8 bp) (toU8 1)) l) then (1 : Int) else 0), pa⟩ : GameState)
    (List.Nodup.filter _ (List.Nodup.filter _ (List.Nodup.filter _ hnd)))
  dsimp only at h4
  rw [h4]
  have m2 : GAME_POSITION (toU8 (bp - 1)) (toU8 0) ∈ List.filter (fun p => p != GAME_POSITION (toU8 bp) (toU8 1)) l ↔ GAME_POSITION (toU8 (bp - 1)) (toU8 0) ∈ l := by
    simp [List.mem_filter, d21]
  have m3 : GAME_POSITION (toU8 bp) (toU8 0) ∈ List.filter (fun p => p != GAME_POSITION (toU8 (bp - 1)) (toU8 0)) (List.filter (fun p => p != GAME_POSITION (toU8 bp) (toU8 1)) l) ↔ GAME_POSITION (toU8 bp) (toU8 0) ∈ l := by
    simp [List.mem_filter, d31, d32]
  have m4 : GAME_POSITION (toU8 (bp + 1)) (toU8 0) ∈ List.filter (fun p => p != GAME_POSITION (toU8 bp) (toU8 0)) (List.filter (fun p => p != GAME_POSITION (toU8 (bp - 1)) (toU8 0)) (List.filter (fun p => p != GAME_POSITION (toU8 bp) (toU8 1)) l)) ↔ GAME_POSITION (toU8 (bp + 1)) (toU8 0) ∈ l := by
    simp [List.mem_filter, d41, d42, d43]
  simp only [GameState.mk.injEq, true_and, and_true]
  constructor
  · simp only [List.filter_filter]
    refine List.filter_congr ?_
    intro a _
    by_cases e1 : a = GAME_POSITION (toU8 bp) (toU8 1) <;>
      by_cases e2 : a = GAME_POSITION (toU8 (bp - 1)) (toU8 0) <;>
      by_cases e3 : a = GAME_POSITION (toU8 bp) (toU8 0) <;>
      by_cases e4 : a = GAME_POSITION (toU8 (bp + 1)) (toU8 0) <;>
      simp [e1, e2, e3, e4]
  · simp only [m2, m3, m4]
    split_ifs <;> omega

/-- Witness for C6: base at 3 with an asteroid on the footprint cell
`(3,1)` (packed 49) and one at packed 40 elsewhere — the footprint hit is
destroyed and exactly one life is charged. -/
theorem claim6_base_hits_footprint_witness :
    check_all_base_hits ⟨3, [], [49, 40], 0, 5, 0⟩ =
      ⟨3, [], [40], 0, 4, 0⟩ :=
  claim6_base_hits_footprint ⟨3, [], [49, 40], 0, 5, 0⟩ (by decide)

/- ### Correctness of the insertion sort in sort_asteroids -/

theorem take_set_of_le {α : Type} (a : α) :
    ∀ (l : List α) (i n : Nat), n ≤ i → (l.set i a).take n = l.take n := by
  intro l
  induction l with
  | nil => intro i n _; rfl
  | cons b t ih =>
    intro i n hn
    cases n with
    | zero => rfl
    | succ m =>
      cases i with
      | zero => omega
      | succ i' => simp [List.set, ih i' m (by omega)]

theorem drop_set_eq_cons {α : Type} (a : α) {l : List α} {i : Nat}
    (h : i < l.length) : (l.set i a).drop i = a :: l.drop (i + 1) := by
  rw [List.set_eq_take_append_cons_drop, if_pos h]
  have hl : (l.take i).length = i := by
    rw [List.length_take]; omega
  calc (l.take i ++ a :: l.drop (i + 1)).drop i
      = (l.take i ++ a :: l.drop (i + 1)).drop (l.take i).length := by rw [hl]
    _ = a :: l.drop (i + 1) := List.drop_left _ _

/-- Functional ordered insert matching the C inner shift loop: the new
element lands after all entries of equal y. -/
def insY (temp : Nat) : List Nat → List Nat
  | [] => [temp]
  | b :: l =>
    if GET_Y_POSITION temp < GET_Y_POSITION b then temp :: b :: l
    else b :: insY temp l

theorem insY_length (temp : Nat) :
    ∀ l : List Nat, (insY temp l).length = l.length + 1 := by
  intro l
  induction l with
  | nil => rfl
  | cons b t ih => by_cases h : GET_Y_POSITION temp < GET_Y_POSITION b <;>
      simp [insY, h, ih]

theorem insY_perm (temp : Nat) :
    ∀ l : List Nat, (insY temp l).Perm (temp :: l) := by
  intro l
  induction l with
  | nil => exact List.Perm.refl _
  | cons b t ih =>
    by_cases h : GET_Y_POSITION temp < GET_Y_POSITION b
    · simp [insY, h]
    · simp only [insY, h, if_false]
      exact (ih.cons b).trans (List.Perm.swap temp b t)

theorem insY_sorted {temp : Nat} :
    ∀ {l : List Nat}, SortedY l → SortedY (insY temp l) := by
  intro l
  induction l with
  | nil => intro _; simp [insY, SortedY]
  | cons b t ih =>
    intro hs
    by_cases h : GET_Y_POSITION temp < GET_Y_POSITION b
    · simp only [insY, h, if_true]
      refine List.Pairwise.cons ?_ hs
      intro x hx
      rcases List.mem_cons.mp hx with rfl | hx
      · omega
      · have := List.rel_of_pairwise_cons hs hx
        omega
    · simp only [insY, h, if_false]
      refine List.Pairwise.cons ?_ (ih hs.of_cons)
      intro x hx
      rcases List.mem_cons.mp (((insY_perm temp t).mem_iff).mp hx) with
        rfl | hx
      · omega
      · exact List.rel_of_pairwise_cons hs hx

theorem insY_append_last {temp a : Nat}
    (h : GET_Y_POSITION temp < GET_Y_POSITION a) :
    ∀ xs : List Nat, insY temp (xs ++ [a]) = insY temp xs ++ [a] := by
  intro xs
  induction xs with
  | nil => simp [insY, h]
  | cons b t ih =>
    by_cases hb : GET_Y_POSITION temp < GET_Y_POSITION b <;>
      simp [insY, hb, ih]

theorem insY_of_all_le {temp : Nat} :
    ∀ {xs : List Nat},
      (∀ x ∈ xs, GET_Y_POSITION x ≤ GET_Y_POSITION temp) →
      insY temp xs = xs ++ [temp] := by
  intro xs
  induction xs with
  | nil => intro _; rfl
  | cons b t ih =>
    intro hall
    have hb : ¬ GET_Y_POSITION temp < GET_Y_POSITION b := by
      have := hall b (List.mem_cons_self b t)
      omega
    simp [insY, hb, ih fun x hx => hall x (List.mem_cons_of_mem b hx)]

/-- The imperative inner loop of `sort_asteroids`, started at index `j`
with a sorted prefix of length `j`, performs an ordered insert into that
prefix and leaves the tail beyond position `j` alone. -/
theorem insertFrom_eq : ∀ (j : Nat) (l : List Nat) (temp : Nat),
    j < l.length → SortedY (l.take j) →
    insertFrom l temp j = insY temp (l.take j) ++ l.drop (j + 1) := by
  intro j
  induction j with
  | zero =>
    intro l temp hlt _
    cases l with
    | nil => simp at hlt
    | cons a t => simp [insertFrom, insY]
  | succ j ih =>
    intro l temp hlt hs
    have hj : j < l.length := by omega
    have hb : l.getD j 0 = l[j] := by
      simp [List.getD_eq_getElem?_getD, List.getElem?_eq_getElem hj]
    have htake : l.take (j + 1) = l.take j ++ [l[j]] := by
      rw [List.take_succ, List.getElem?_eq_getElem hj]
      rfl
    unfold insertFrom
    by_cases hgt : GET_Y_POSITION (l.getD j 0) > GET_Y_POSITION temp
    · rw [if_pos hgt]
      have hsj : SortedY (l.take j) := by
        have hsub : (l.take j).Sublist (l.take (j + 1)) := by
          have : l.take j = (l.take (j + 1)).take j := by
            rw [List.take_take]; congr 1; omega
          rw [this]
          exact List.take_sublist _ _
        exact hs.sublist hsub
      have := ih (l.set (j + 1) (l.getD j 0)) temp
        (by rw [List.length_set]; omega)
        (by rw [take_set_of_le _ _ _ _ (by omega)]; exact hsj)
      rw [this, take_set_of_le _ _ _ _ (by omega), hb,
        drop_set_eq_cons _ hlt, htake,
        insY_append_last (by rw [hb] at hgt; omega)]
      simp
    · rw [if_neg hgt]
      have hall : ∀ x ∈ l.take (j + 1),
          GET_Y_POSITION x ≤ GET_Y_POSITION temp := by
        intro x hx
        rw [htake] at hx hs
        rcases List.mem_append.mp hx with hx | hx
        · have hcross :=
            (List.pairwise_append.mp hs).2.2 x hx l[j] (List.mem_singleton_self _)
          rw [hb] at hgt
          omega
        · rw [List.mem_singleton.mp hx]
          rw [hb] at hgt
          omega
      rw [List.set_eq_take_append_cons_drop, if_pos hlt,
        insY_of_all_le hall]
      simp

theorem sortedY_take_one (l : List Nat) : SortedY (l.take 1) := by
  cases l <;> simp [SortedY]

/-- The outer loop of `sort_asteroids`: given enough fuel and a sorted
prefix of length `i`, the result is sorted and a permutation of the
input. -/
theorem sortIter_sorted_perm : ∀ (fuel i : Nat) (l : List Nat),
    l.length ≤ i + fuel → SortedY (l.take i) →
    SortedY (sortIter fuel i l) ∧ (sortIter fuel i l).Perm l := by
  intro fuel
  induction fuel with
  | zero =>
    intro i l hle hs
    rw [List.take_of_length_le (by omega)] at hs
    exact ⟨hs, List.Perm.refl _⟩
  | succ fuel ih =>
    intro i l hle hs
    by_cases hi : i < l.length
    · rw [sortIter, if_pos hi]
      have hb : l.getD i 0 = l[i] := by
        simp [List.getD_eq_getElem?_getD, List.getElem?_eq_getElem hi]
      have heq : insertFrom l (l.getD i 0) i =
          insY (l.getD i 0) (l.take i) ++ l.drop (i + 1) :=
        insertFrom_eq i l _ hi hs
      have hlent : (l.take i).length = i := by rw [List.length_take]; omega
      have hlen1 : (insertFrom l (l.getD i 0) i).length = l.length := by
        rw [heq]
        simp only [List.length_append, insY_length, hlent, List.length_drop]
        omega
      have htk : (insertFrom l (l.getD i 0) i).take (i + 1) =
          insY (l.getD i 0) (l.take i) := by
        rw [heq]
        have : i + 1 = (insY (l.getD i 0) (l.take i)).length := by
          rw [insY_length, hlent]
        rw [this, List.take_left]
      have hs1 : SortedY ((insertFrom l (l.getD i 0) i).take (i + 1)) := by
        rw [htk]; exact insY_sorted hs
      have hperm1 : (insertFrom l (l.getD i 0) i).Perm l := by
        rw [heq]
        have p1 : (insY (l.getD i 0) (l.take i) ++ l.drop (i + 1)).Perm
            ((l.getD i 0 :: l.take i) ++ l.drop (i + 1)) :=
          List.Perm.append_right _ (insY_perm _ _)
        have p2 : ((l.getD i 0 :: l.take i) ++ l.drop (i + 1)).Perm
            (l.take i ++ l.getD i 0 :: l.drop (i + 1)) := by
          rw [List.cons_append]
          exact List.perm_middle.symm
        have p3 : l.take i ++ l.getD i 0 :: l.drop (i + 1) = l := by
          rw [hb, ← List.drop_eq_getElem_cons hi, List.take_append_drop]
        rw [p3] at p2
        exact p1.trans p2
      obtain ⟨hA, hB⟩ := ih (i + 1) (insertFrom l (l.getD i 0) i)
        (by rw [hlen1]; omega) hs1
      exact ⟨hA, hB.trans hperm1⟩
    · rw [sortIter, if_neg hi]
      rw [List.take_of_length_le (by omega)] at hs
      exact ⟨hs, List.Perm.refl _⟩

/-- `sort_asteroids` sorts the asteroid list by non-decreasing y and
permutes it, leaving every other field alone. -/
theorem sort_asteroids_spec (s : GameState) :
    SortedY (sort_asteroids s).asteroids ∧
    (sort_asteroids s).asteroids.Perm s.asteroids ∧
    (sort_asteroids s).projectiles = s.projectiles ∧
    (sort_asteroids s).basePosition = s.basePosition := by
  obtain ⟨h1, h2⟩ := sortIter_sorted_perm s.asteroids.length 1 s.asteroids
    (by omega) (sortedY_take_one _)
  exact ⟨h1, h2, rfl, rfl⟩

/- ### Spawn-loop lemmas -/

theorem GET_Y_GAME_POSITION (x y : Nat) :
    GET_Y_POSITION (GAME_POSITION x y) = y % 16 := by
  simp only [GAME_POSITION, GET_Y_POSITION]
  omega

theorem GAME_POSITION_lt (x y : Nat) : GAME_POSITION x y < 256 := by
  simp only [GAME_POSITION]
  omega

theorem GET_Y_lt (p : Nat) : GET_Y_POSITION p < 16 := by
  simp only [GET_Y_POSITION]
  omega

/-- One call of the sampling loop either leaves the state unchanged or
appends a single fresh asteroid whose y lies in `[rows, 16)`. -/
theorem spawnLoop_shape (rows : Nat) (hrows : rows < 16) (rng : Nat → Nat) :
    ∀ (fuel k : Nat) (s : GameState),
    (spawnLoop rows rng fuel k s).1 = s ∨
    ∃ p : Nat, p ∉ s.asteroids ∧ p < 256 ∧ rows ≤ GET_Y_POSITION p ∧
      (spawnLoop rows rng fuel k s).1 =
        { s with asteroids := s.asteroids ++ [p] } := by
  intro fuel
  induction fuel with
  | zero => intro k s; left; rfl
  | succ fuel ih =>
    intro k s
    by_cases hfree : asteroid_at (rng k % FIELD_WIDTH)
        (rows + rng (k + 1) % (FIELD_HEIGHT - rows)) s = -1
    · right
      refine ⟨GAME_POSITION (rng k % FIELD_WIDTH)
          (rows + rng (k + 1) % (FIELD_HEIGHT - rows)),
          ?_, GAME_POSITION_lt _ _, ?_, ?_⟩
      · exact (scan_at_neg_iff _ _).mp hfree
      · rw [GET_Y_GAME_POSITION]
        have hm : rng (k + 1) % (FIELD_HEIGHT - rows) < FIELD_HEIGHT - rows :=
          Nat.mod_lt _ (by simp only [FIELD_HEIGHT]; omega)
        simp only [FIELD_HEIGHT] at hm ⊢
        omega
      · rw [spawnLoop, if_pos hfree]
    · rw [spawnLoop, if_neg hfree]
      exact ih (k + 2) s

theorem nodup_append_fresh {l : List Nat} {p : Nat} (hnd : l.Nodup)
    (hp : p ∉ l) : (l ++ [p]).Nodup := by
  rw [List.nodup_append]
  refine ⟨hnd, List.nodup_singleton _, ?_⟩
  intro a ha hap
  rw [List.mem_singleton.mp hap] at ha
  exact hp ha

theorem sortedY_append_top {l : List Nat} {p : Nat} (hs : SortedY l)
    (hp : GET_Y_POSITION p = 15) : SortedY (l ++ [p]) := by
  rw [SortedY, List.pairwise_append]
  refine ⟨hs, List.pairwise_singleton _ _, ?_⟩
  intro a _ b hb
  rw [List.mem_singleton.mp hb, hp]
  have := GET_Y_lt a
  omega

/-- `add_asteroid_in_rows` only ever appends one fresh asteroid to the
list (or does nothing): the other fields are untouched, duplicate
freedom and byte bounds are preserved, and for top-row spawning
(`blockedRows = 15`) sortedness is preserved as well. -/
theorem add_asteroid_in_rows_fields (cfg : Config) (rows : Nat)
    (hrows : rows < 16) (rng : Nat → Nat) (k : Nat) (s : GameState) :
    (add_asteroid_in_rows cfg rows rng k s).1.projectiles = s.projectiles ∧
    (add_asteroid_in_rows cfg rows rng k s).1.basePosition =
      s.basePosition ∧
    (s.asteroids.Nodup →
      (add_asteroid_in_rows cfg rows rng k s).1.asteroids.Nodup) ∧
    (U8List s.asteroids →
      U8List (add_asteroid_in_rows cfg rows rng k s).1.asteroids) ∧
    (rows = 15 → SortedY s.asteroids →
      SortedY (add_asteroid_in_rows cfg rows rng k s).1.asteroids) := by
  unfold add_asteroid_in_rows
  by_cases hfull : s.asteroids.length = cfg.maxAsteroids
  · rw [if_pos hfull]
    exact ⟨rfl, rfl, fun h => h, fun h => h, fun _ h => h⟩
  · rw [if_neg hfull]
    rcases spawnLoop_shape rows hrows rng 129 k s with hsame | ⟨p, hp1, hp2, hp3, hp4⟩
    · rw [hsame]
      exact ⟨rfl, rfl, fun h => h, fun h => h, fun _ h => h⟩
    · rw [hp4]
      refine ⟨rfl, rfl, fun h => nodup_append_fresh h hp1, fun h => ?_,
        fun hr hs => ?_⟩
      · intro q hq
        rcases List.mem_append.mp hq with hq | hq
        · exact h q hq
        · rw [List.mem_singleton.mp hq]; exact hp2
      · refine sortedY_append_top hs ?_
        subst hr
        have := GET_Y_lt p
        omega

/-- The replenishment loop preserves the asteroid-list invariants and
touches neither the projectile list nor the base. -/
theorem amaLoop_wf (cfg : Config) (rng : Nat → Nat) :
    ∀ (m k : Nat) (s : GameState),
    SortedY s.asteroids → s.asteroids.Nodup → U8List s.asteroids →
    SortedY (amaLoop cfg rng m k s).1.asteroids ∧
    (amaLoop cfg rng m k s).1.asteroids.Nodup ∧
    U8List (amaLoop cfg rng m k s).1.asteroids ∧
    (amaLoop cfg rng m k s).1.projectiles = s.projectiles ∧
    (amaLoop cfg rng m k s).1.basePosition = s.basePosition := by
  intro m
  induction m with
  | zero => intro k s h1 h2 h3; exact ⟨h1, h2, h3, rfl, rfl⟩
  | succ m ih =>
    intro k s h1 h2 h3
    rw [amaLoop]
    obtain ⟨f1, f2, f3, f4, f5⟩ := add_asteroid_in_rows_fields cfg
      (FIELD_HEIGHT - 1) (by decide) rng k s
    obtain ⟨g1, g2, g3, g4, g5⟩ := ih _ _ (f5 (by decide) h1) (f3 h2) (f4 h3)
    exact ⟨g1, g2, g3, g4.trans f1, g5.trans f2⟩

theorem add_missing_asteroids_wf (cfg : Config) (rng : Nat → Nat)
    (k : Nat) (s : GameState) (h1 : SortedY s.asteroids)
    (h2 : s.asteroids.Nodup) (h3 : U8List s.asteroids) :
    SortedY (add_missing_asteroids cfg rng k s).1.asteroids ∧
    (add_missing_asteroids cfg rng k s).1.asteroids.Nodup ∧
    U8List (add_missing_asteroids cfg rng k s).1.asteroids ∧
    (add_missing_asteroids cfg rng k s).1.projectiles = s.projectiles ∧
    (add_missing_asteroids cfg rng k s).1.basePosition = s.basePosition :=
  amaLoop_wf cfg rng _ k s h1 h2 h3

/-- The initial spawning loop (rows `y ≥ 3`, so not necessarily sorted)
preserves duplicate freedom, byte bounds and the other fields. -/
theorem initLoop_wf (cfg : Config) (rng : Nat → Nat) :
    ∀ (m k : Nat) (s : GameState),
    s.asteroids.Nodup → U8List s.asteroids →
    (initLoop cfg rng m k s).1.asteroids.Nodup ∧
    U8List (initLoop cfg rng m k s).1.asteroids ∧
    (initLoop cfg rng m k s).1.projectiles = s.projectiles ∧
    (initLoop cfg rng m k s).1.basePosition = s.basePosition := by
  intro m
  induction m with
  | zero => intro k s h2 h3; exact ⟨h2, h3, rfl, rfl⟩
  | succ m ih =>
    intro k s h2 h3
    rw [initLoop]
    obtain ⟨f1, f2, f3, f4, _⟩ := add_asteroid_in_rows_fields cfg 3
      (by decide) rng k s
    obtain ⟨g2, g3, g4, g5⟩ := ih _ _ (f3 h2) (f4 h3)
    exact ⟨g2, g3, g4.trans f1, g5.trans f2⟩

/-- Every state produced by `initialise_game` satisfies the engine
invariant. -/
theorem initialise_game_wf (cfg : Config) (rng : Nat → Nat) (k : Nat)
    (s : GameState) : Wf (initialise_game cfg rng k s).1 := by
  unfold initialise_game
  dsimp only
  obtain ⟨g2, g3, g4, g5⟩ := initLoop_wf cfg rng cfg.maxAsteroids k
    ⟨3, [], [], s.score, s.lives, 0⟩ List.nodup_nil
    (by intro p hp; simp at hp)
  obtain ⟨s1, s2, s3, s4⟩ := sort_asteroids_spec
    (initLoop cfg rng cfg.maxAsteroids k
      ⟨3, [], [], s.score, s.lives, 0⟩).1
  refine ⟨s1, (s2.nodup_iff).mpr g2, ?_, ?_, ?_, ?_, ?_⟩
  · rw [s3, g4]; exact List.nodup_nil
  · intro p hp
    exact g3 p (s2.mem_iff.mp hp)
  · rw [s3, g4]; intro p hp; simp at hp
  · rw [s4, g5]
    show (0 : Int) ≤ 3
    decide
  · rw [s4, g5]
    show (3 : Int) ≤ 7
    decide

theorem remove_asteroid_idx_eq {i : Nat} {s : GameState}
    (h : i < s.asteroids.length) :
    (remove_asteroid (i : Int) s).asteroids = s.asteroids.eraseIdx i := by
  unfold remove_asteroid
  rw [if_neg (by push_cast; omega)]
  show s.asteroids.eraseIdx ((i : Int)).toNat = s.asteroids.eraseIdx i
  rw [show ((i : Int)).toNat = i from by omega]

theorem remove_projectile_idx_eq {i : Nat} {s : GameState}
    (h : i < s.projectiles.length) :
    (remove_projectile (i : Int) s).projectiles =
      s.projectiles.eraseIdx i := by
  unfold remove_projectile
  rw [if_neg (by push_cast; omega)]
  show s.projectiles.eraseIdx ((i : Int)).toNat = s.projectiles.eraseIdx i
  rw [show ((i : Int)).toNat = i from by omega]

/- ### Advance-pass invariants -/

theorem getD_append_len (P S : List Nat) (b d : Nat) :
    (P ++ b :: S).getD P.length d = b := by
  induction P with
  | nil => rfl
  | cons a t ih =>
    simpa [List.cons_append, List.getD_cons_succ] using ih

theorem set_append_len (P S : List Nat) (b v : Nat) :
    (P ++ b :: S).set P.length v = P ++ v :: S := by
  induction P with
  | nil => rfl
  | cons a t ih =>
    simpa [List.cons_append, List.set_cons_succ] using ih

theorem eraseIdx_append_len (P S : List Nat) (b : Nat) :
    (P ++ b :: S).eraseIdx P.length = P ++ S := by
  induction P with
  | nil => rfl
  | cons a t ih =>
    simpa [List.cons_append, List.eraseIdx_cons_succ] using ih

/-- Moving a packed position down one row is injective on byte-packed
positions with `y ≥ 1`. -/
theorem decPos_inj {b c : Nat} (hb : b < 256) (hc : c < 256)
    (hyb : 1 ≤ GET_Y_POSITION b) (hyc : 1 ≤ GET_Y_POSITION c)
    (h : GAME_POSITION (GET_X_POSITION b) (GET_Y_POSITION b - 1) =
      GAME_POSITION (GET_X_POSITION c) (GET_Y_POSITION c - 1)) : b = c := by
  simp only [GAME_POSITION, GET_X_POSITION, GET_Y_POSITION] at h hyb hyc
  omega

/-- Moving a packed position up one row is injective on byte-packed
positions with `y ≤ 14`. -/
theorem incPos_inj {b c : Nat} (hb : b < 256) (hc : c < 256)
    (hyb : GET_Y_POSITION b ≤ 14) (hyc : GET_Y_POSITION c ≤ 14)
    (h : GAME_POSITION (GET_X_POSITION b) (GET_Y_POSITION b + 1) =
      GAME_POSITION (GET_X_POSITION c) (GET_Y_POSITION c + 1)) : b = c := by
  simp only [GAME_POSITION, GET_X_POSITION, GET_Y_POSITION] at h hyb hyc
  omega

/-- Loop invariant of the asteroid pass: `P` is the processed prefix
(each survivor already moved down one row), `S` the untouched suffix. -/
def AsterInv (P S : List Nat) : Prop :=
  SortedY P ∧ SortedY S ∧ P.Nodup ∧ S.Nodup ∧ U8List P ∧ U8List S ∧
  (∀ a ∈ P, ∀ b ∈ S, GET_Y_POSITION a < GET_Y_POSITION b) ∧
  (∀ a ∈ P, ∀ b ∈ S, 1 ≤ GET_Y_POSITION b →
    a ≠ GAME_POSITION (GET_X_POSITION b) (GET_Y_POSITION b - 1))

theorem asterInv_tail {P S : List Nat} {b : Nat}
    (hinv : AsterInv P (b :: S)) : AsterInv P S := by
  obtain ⟨i1, i2, i3, i4, i5, i6, i7, i8⟩ := hinv
  exact ⟨i1, i2.of_cons, i3, (List.nodup_cons.mp i4).2, i5,
    fun p hp => i6 p (List.mem_cons_of_mem b hp),
    fun a ha c hc => i7 a ha c (List.mem_cons_of_mem b hc),
    fun a ha c hc => i8 a ha c (List.mem_cons_of_mem b hc)⟩

theorem asterInv_step {P S : List Nat} {b : Nat}
    (hinv : AsterInv P (b :: S)) (hy : 1 ≤ GET_Y_POSITION b) :
    AsterInv
      (P ++ [GAME_POSITION (GET_X_POSITION b) (GET_Y_POSITION b - 1)])
      S := by
  obtain ⟨i1, i2, i3, i4, i5, i6, i7, i8⟩ := hinv
  have hbS : b ∈ b :: S := List.mem_cons_self b S
  have hbU : b < 256 := i6 b hbS
  have hydec : GET_Y_POSITION
      (GAME_POSITION (GET_X_POSITION b) (GET_Y_POSITION b - 1)) =
      GET_Y_POSITION b - 1 := by
    rw [GET_Y_GAME_POSITION]
    have := GET_Y_lt b
    omega
  refine ⟨?_, i2.of_cons, ?_, (List.nodup_cons.mp i4).2, ?_, ?_, ?_, ?_⟩
  · rw [SortedY, List.pairwise_append]
    refine ⟨i1, List.pairwise_singleton _ _, ?_⟩
    intro a ha q hq
    rw [List.mem_singleton.mp hq, hydec]
    have := i7 a ha b hbS
    omega
  · refine nodup_append_fresh i3 ?_
    intro hmem
    exact i8 _ hmem b hbS hy rfl
  · intro p hp
    rcases List.mem_append.mp hp with hp | hp
    · exact i5 p hp
    · rw [List.mem_singleton.mp hp]
      exact GAME_POSITION_lt _ _
  · intro p hp
    exact i6 p (List.mem_cons_of_mem b hp)
  · intro a ha c hc
    rcases List.mem_append.mp ha with ha | ha
    · exact i7 a ha c (List.mem_cons_of_mem b hc)
    · rw [List.mem_singleton.mp ha, hydec]
      have hbc := List.rel_of_pairwise_cons i2 hc
      omega
  · intro a ha c hc hyc
    rcases List.mem_append.mp ha with ha | ha
    · exact i8 a ha c (List.mem_cons_of_mem b hc) hyc
    · rw [List.mem_singleton.mp ha]
      intro hcontra
      have hcU : c < 256 := i6 c (List.mem_cons_of_mem b hc)
      have hbc : b = c := decPos_inj hbU hcU hy hyc hcontra
      exact (List.nodup_cons.mp i4).1 (hbc ▸ hc)

/-- The asteroid pass preserves sortedness, duplicate freedom and byte
bounds of the asteroid list, only removes projectiles, and does not move
the base. -/
theorem asteroidsLoop_inv : ∀ (fuel : Nat) (P S : List Nat) (s : GameState),
    s.asteroids = P ++ S → S.length ≤ fuel → AsterInv P S →
    SortedY (asteroidsLoop fuel P.length s).asteroids ∧
    (asteroidsLoop fuel P.length s).asteroids.Nodup ∧
    U8List (asteroidsLoop fuel P.length s).asteroids ∧
    (asteroidsLoop fuel P.length s).projectiles.Sublist s.projectiles ∧
    (asteroidsLoop fuel P.length s).basePosition = s.basePosition := by
  intro fuel
  induction fuel with
  | zero =>
    intro P S s hps hlen hinv
    have hS : S = [] := List.length_eq_zero.mp (by omega)
    subst hS
    obtain ⟨i1, _, i3, _, i5, _, _, _⟩ := hinv
    rw [List.append_nil] at hps
    show SortedY s.asteroids ∧ s.asteroids.Nodup ∧ U8List s.asteroids ∧
      s.projectiles.Sublist s.projectiles ∧ s.basePosition = s.basePosition
    rw [hps]
    exact ⟨i1, i3, i5, List.Sublist.refl _, rfl⟩
  | succ fuel ih =>
    intro P S s hps hlen hinv
    cases S with
    | nil =>
      rw [List.append_nil] at hps
      obtain ⟨i1, _, i3, _, i5, _, _, _⟩ := hinv
      rw [asteroidsLoop_exit (fuel + 1) P.length s (by rw [hps])]
      rw [hps]
      exact ⟨i1, i3, i5, List.Sublist.refl _, rfl⟩
    | cons b S =>
      have hlt : P.length < s.asteroids.length := by
        rw [hps, List.length_append, List.length_cons]
        omega
      rw [asteroidsLoop, if_pos hlt]
      dsimp only
      have hgetD : s.asteroids.getD P.length 0 = b := by
        rw [hps]; exact getD_append_len P S b 0
      rw [hgetD]
      by_cases hy : GET_Y_POSITION b = 0
      · rw [if_pos hy]
        have hrm : remove_asteroid (P.length : Int) s =
            { s with asteroids := P ++ S } := by
          unfold remove_asteroid
          rw [if_neg (by push_cast; omega)]
          rw [show ((P.length : Int)).toNat = P.length from by omega, hps,
            eraseIdx_append_len]
        rw [hrm]
        exact ih P S _ rfl
          (by simp only [List.length_cons] at hlen; omega)
          (asterInv_tail hinv)
      · rw [if_neg hy]
        rcases check_asteroid_hit_cases
            (projectile_at (GET_X_POSITION b) (GET_Y_POSITION b - 1) s)
            (P.length : Int) s with ⟨hc, _⟩ | ⟨hc, _, _⟩
        · rw [hc]
          simp only [Bool.false_eq_true, if_false]
          have hset : s.asteroids.set P.length
              (GAME_POSITION (GET_X_POSITION b) (GET_Y_POSITION b - 1)) =
              (P ++ [GAME_POSITION (GET_X_POSITION b)
                (GET_Y_POSITION b - 1)]) ++ S := by
            rw [hps, set_append_len, List.append_assoc, List.singleton_append]
          rw [show P.length + 1 = (P ++ [GAME_POSITION (GET_X_POSITION b)
              (GET_Y_POSITION b - 1)]).length from by simp]
          exact ih _ S _ (by dsimp only; rw [hset])
            (by simp only [List.length_cons] at hlen; omega)
            (asterInv_step hinv (by omega))
        · rw [hc]
          simp only [if_true]
          have hx : (add_to_score 1 (remove_asteroid (P.length : Int)
              (remove_projectile
                (projectile_at (GET_X_POSITION b) (GET_Y_POSITION b - 1) s)
                s))).asteroids = P ++ S := by
            show (remove_asteroid (P.length : Int) _).asteroids = P ++ S
            rw [remove_asteroid_idx_eq
              (by rw [remove_projectile_asteroids]; exact hlt)]
            rw [remove_projectile_asteroids, hps, eraseIdx_append_len]
          obtain ⟨g1, g2, g3, g4, g5⟩ := ih P S _ hx
            (by simp only [List.length_cons] at hlen; omega)
            (asterInv_tail hinv)
          refine ⟨g1, g2, g3, ?_, ?_⟩
          · refine g4.trans ?_
            show (remove_asteroid (P.length : Int)
              (remove_projectile _ s)).projectiles.Sublist s.projectiles
            rw [remove_asteroid_projectiles]
            exact remove_projectile_sublist _ _
          · rw [g5]
            show (remove_asteroid (P.length : Int)
              (remove_projectile _ s)).basePosition = s.basePosition
            rw [remove_asteroid_basePosition, remove_projectile_basePosition]

/-- Loop invariant of the projectile pass: `P` the processed prefix (each
survivor already moved up one row), `S` the untouched suffix. -/
def ProjInv (P S : List Nat) : Prop :=
  P.Nodup ∧ S.Nodup ∧ U8List P ∧ U8List S ∧
  (∀ a ∈ P, ∀ b ∈ S, GET_Y_POSITION b ≤ 14 →
    a ≠ GAME_POSITION (GET_X_POSITION b) (GET_Y_POSITION b + 1))

theorem projInv_tail {P S : List Nat} {b : Nat}
    (hinv : ProjInv P (b :: S)) : ProjInv P S := by
  obtain ⟨i1, i2, i3, i4, i5⟩ := hinv
  exact ⟨i1, (List.nodup_cons.mp i2).2, i3,
    fun p hp => i4 p (List.mem_cons_of_mem b hp),
    fun a ha c hc => i5 a ha c (List.mem_cons_of_mem b hc)⟩

theorem projInv_step {P S : List Nat} {b : Nat}
    (hinv : ProjInv P (b :: S)) (hy : GET_Y_POSITION b ≤ 14) :
    ProjInv
      (P ++ [GAME_POSITION (GET_X_POSITION b) (GET_Y_POSITION b + 1)])
      S := by
  obtain ⟨i1, i2, i3, i4, i5⟩ := hinv
  have hbS : b ∈ b :: S := List.mem_cons_self b S
  have hbU : b < 256 := i4 b hbS
  refine ⟨?_, (List.nodup_cons.mp i2).2, ?_, ?_, ?_⟩
  · refine nodup_append_fresh i1 ?_
    intro hmem
    exact i5 _ hmem b hbS hy rfl
  · intro p hp
    rcases List.mem_append.mp hp with hp | hp
    · exact i3 p hp
    · rw [List.mem_singleton.mp hp]
      exact GAME_POSITION_lt _ _
  · intro p hp
    exact i4 p (List.mem_cons_of_mem b hp)
  · intro a ha c hc hyc
    rcases List.mem_append.mp ha with ha | ha
    · exact i5 a ha c (List.mem_cons_of_mem b hc) hyc
    · rw [List.mem_singleton.mp ha]
      intro hcontra
      have hcU : c < 256 := i4 c (List.mem_cons_of_mem b hc)
      have hbc : b = c := incPos_inj hbU hcU hy hyc hcontra
      exact (List.nodup_cons.mp i2).1 (hbc ▸ hc)

/-- The projectile pass preserves duplicate freedom and byte bounds of
the projectile list, only removes asteroids, and does not move the
base. -/
theorem projectilesLoop_inv :
    ∀ (fuel : Nat) (P S : List Nat) (s : GameState),
    s.projectiles = P ++ S → S.length ≤ fuel → ProjInv P S →
    (projectilesLoop fuel P.length s).projectiles.Nodup ∧
    U8List (projectilesLoop fuel P.length s).projectiles ∧
    (projectilesLoop fuel P.length s).asteroids.Sublist s.asteroids ∧
    (projectilesLoop fuel P.length s).basePosition = s.basePosition := by
  intro fuel
  induction fuel with
  | zero =>
    intro P S s hps hlen hinv
    have hS : S = [] := List.length_eq_zero.mp (by omega)
    subst hS
    obtain ⟨i1, _, i3, _, _⟩ := hinv
    rw [List.append_nil] at hps
    show s.projectiles.Nodup ∧ U8List s.projectiles ∧
      s.asteroids.Sublist s.asteroids ∧ s.basePosition = s.basePosition
    rw [hps]
    exact ⟨i1, i3, List.Sublist.refl _, rfl⟩
  | succ fuel ih =>
    intro P S s hps hlen hinv
    cases S with
    | nil =>
      rw [List.append_nil] at hps
      obtain ⟨i1, _, i3, _, _⟩ := hinv
      rw [projectilesLoop_exit (fuel + 1) P.length s (by rw [hps])]
      rw [hps]
      exact ⟨i1, i3, List.Sublist.refl _, rfl⟩
    | cons b S =>
      have hlt : P.length < s.projectiles.length := by
        rw [hps, List.length_append, List.length_cons]
        omega
      rw [projectilesLoop, if_pos hlt]
      dsimp only
      have hgetD : s.projectiles.getD P.length 0 = b := by
        rw [hps]; exact getD_append_len P S b 0
      rw [hgetD]
      by_cases hy : GET_Y_POSITION b + 1 = FIELD_HEIGHT
      · rw [if_pos hy]
        have hrm : remove_projectile (P.length : Int) s =
            { s with projectiles := P ++ S } := by
          unfold remove_projectile
          rw [if_neg (by push_cast; omega)]
          rw [show ((P.length : Int)).toNat = P.length from by omega, hps,
            eraseIdx_append_len]
        rw [hrm]
        exact ih P S _ rfl
          (by simp only [List.length_cons] at hlen; omega)
          (projInv_tail hinv)
      · rw [if_neg hy]
        rcases check_asteroid_hit_cases (P.length : Int)
            (asteroid_at (GET_X_POSITION b) (GET_Y_POSITION b + 1) s) s with
          ⟨hc, _⟩ | ⟨hc, _, _⟩
        · rw [hc]
          simp only [Bool.false_eq_true, if_false]
          have hyle : GET_Y_POSITION b ≤ 14 := by
            have := GET_Y_lt b
            simp only [FIELD_HEIGHT] at hy
            omega
          have hset : s.projectiles.set P.length
              (GAME_POSITION (GET_X_POSITION b) (GET_Y_POSITION b + 1)) =
              (P ++ [GAME_POSITION (GET_X_POSITION b)
                (GET_Y_POSITION b + 1)]) ++ S := by
            rw [hps, set_append_len, List.append_assoc, List.singleton_append]
          rw [show P.length + 1 = (P ++ [GAME_POSITION (GET_X_POSITION b)
              (GET_Y_POSITION b + 1)]).length from by simp]
          exact ih _ S _ (by dsimp only; rw [hset])
            (by simp only [List.length_cons] at hlen; omega)
            (projInv_step hinv hyle)
        · rw [hc]
          simp only [if_true]
          have hx : (add_to_score 1 (remove_asteroid
              (asteroid_at (GET_X_POSITION b) (GET_Y_POSITION b + 1) s)
              (remove_projectile (P.length : Int) s))).projectiles =
              P ++ S := by
            show (remove_asteroid _
              (remove_projectile (P.length : Int) s)).projectiles = P ++ S
            rw [remove_asteroid_projectiles,
              remove_projectile_idx_eq hlt, hps, eraseIdx_append_len]
          obtain ⟨g1, g2, g3, g4⟩ := ih P S _ hx
            (by simp only [List.length_cons] at hlen; omega)
            (projInv_tail hinv)
          refine ⟨g1, g2, ?_, ?_⟩
          · refine g3.trans ?_
            show (remove_asteroid _
              (remove_projectile (P.length : Int) s)).asteroids.Sublist
              s.asteroids
            have := remove_asteroid_sublist
              (asteroid_at (GET_X_POSITION b) (GET_Y_POSITION b + 1) s)
              (remove_projectile (P.length : Int) s)
            rw [remove_projectile_asteroids] at this
            exact this
          · rw [g4]
            show (remove_asteroid _
              (remove_projectile (P.length : Int) s)).basePosition =
              s.basePosition
            rw [remove_asteroid_basePosition, remove_projectile_basePosition]

/- ### Invariant preservation by each public operation -/

theorem check_base_hit_parts (x y : Int) (s : GameState) :
    (check_base_hit x y s).asteroids.Sublist s.asteroids ∧
    (check_base_hit x y s).projectiles = s.projectiles := by
  rw [check_base_hit_eq]
  split
  · exact ⟨List.erase_sublist _ _, rfl⟩
  · exact ⟨List.Sublist.refl _, rfl⟩

theorem check_all_base_hits_parts (s : GameState) :
    (check_all_base_hits s).asteroids.Sublist s.asteroids ∧
    (check_all_base_hits s).projectiles = s.projectiles := by
  unfold check_all_base_hits
  dsimp only
  obtain ⟨a1, p1⟩ := check_base_hit_parts s.basePosition 1 s
  obtain ⟨a2, p2⟩ := check_base_hit_parts
    ((check_base_hit s.basePosition 1 s).basePosition - 1) 0
    (check_base_hit s.basePosition 1 s)
  obtain ⟨a3, p3⟩ := check_base_hit_parts _ 0
    (check_base_hit ((check_base_hit s.basePosition 1 s).basePosition - 1) 0
      (check_base_hit s.basePosition 1 s))
  obtain ⟨a4, p4⟩ := check_base_hit_parts _ 0
    (check_base_hit _ 0
      (check_base_hit ((check_base_hit s.basePosition 1 s).basePosition - 1)
        0 (check_base_hit s.basePosition 1 s)))
  exact ⟨(a4.trans a3).trans (a2.trans a1),
    ((p4.trans p3).trans p2).trans p1⟩

theorem wf_of_sub {s t : GameState}
    (ha : t.asteroids.Sublist s.asteroids)
    (hp : t.projectiles.Sublist s.projectiles)
    (hb : t.basePosition = s.basePosition) (h : Wf s) : Wf t := by
  obtain ⟨w1, w2, w3, w4, w5, w6, w7⟩ := h
  refine ⟨w1.sublist ha, w2.sublist ha, w3.sublist hp,
    fun p hm => w4 p (ha.mem hm), fun p hm => w5 p (hp.mem hm), ?_, ?_⟩
  · rw [hb]; exact w6
  · rw [hb]; exact w7

theorem wf_of_parts {s t : GameState}
    (ha : t.asteroids.Sublist s.asteroids)
    (hp : t.projectiles = s.projectiles)
    (hb : t.basePosition = s.basePosition) (h : Wf s) : Wf t := by
  obtain ⟨w1, w2, w3, w4, w5, w6, w7⟩ := h
  exact ⟨w1.sublist ha, w2.sublist ha, hp ▸ w3,
    fun p hm => w4 p (ha.mem hm), hp ▸ w5, hb ▸ w6, hb ▸ w7⟩

theorem wf_check_all_base_hits {s : GameState} (h : Wf s) :
    Wf (check_all_base_hits s) := by
  obtain ⟨ha, hp⟩ := check_all_base_hits_parts s
  exact wf_of_parts ha hp (check_all_base_hits_basePosition s) h

theorem wf_move_base {s : GameState} {d : Int} (h : Wf s)
    (hd : d = MOVE_LEFT ∨ d = MOVE_RIGHT) : Wf (move_base d s).2 := by
  unfold move_base
  by_cases hb : (s.basePosition = 0 ∧ d = MOVE_LEFT) ∨
      (s.basePosition = 7 ∧ d = MOVE_RIGHT)
  · rw [if_pos hb]; exact h
  · rw [if_neg hb]
    dsimp only
    refine wf_check_all_base_hits ⟨h.1, h.2.1, h.2.2.1, h.2.2.2.1,
      h.2.2.2.2.1, ?_, ?_⟩ <;>
      · simp only [MOVE_LEFT, MOVE_RIGHT] at hd hb
        obtain ⟨_, _, _, _, _, hb1, hb2⟩ := h
        dsimp only
        rcases hd with rfl | rfl <;> simp at hb <;> omega

theorem check_asteroid_hit_parts (pi ai : Int) (s : GameState) :
    (check_asteroid_hit pi ai s).2.asteroids.Sublist s.asteroids ∧
    (check_asteroid_hit pi ai s).2.projectiles.Sublist s.projectiles ∧
    (check_asteroid_hit pi ai s).2.basePosition = s.basePosition := by
  rcases check_asteroid_hit_cases pi ai s with ⟨hc, _⟩ | ⟨hc, _, _⟩ <;>
    rw [hc]
  · exact ⟨List.Sublist.refl _, List.Sublist.refl _, rfl⟩
  · refine ⟨?_, ?_, ?_⟩
    · show (remove_asteroid ai
        (remove_projectile pi s)).asteroids.Sublist s.asteroids
      have := remove_asteroid_sublist ai (remove_projectile pi s)
      rw [remove_projectile_asteroids] at this
      exact this
    · show (remove_asteroid ai
        (remove_projectile pi s)).projectiles.Sublist s.projectiles
      rw [remove_asteroid_projectiles]
      exact remove_projectile_sublist _ _
    · show (remove_asteroid ai
        (remove_projectile pi s)).basePosition = s.basePosition
      rw [remove_asteroid_basePosition, remove_projectile_basePosition]

theorem wf_fire_projectile {s : GameState} (cfg : Config) (h : Wf s) :
    Wf (fire_projectile cfg s).2 := by
  unfold fire_projectile
  by_cases hc : s.projectiles.length < cfg.maxProjectiles ∧
      projectile_at (toU8 s.basePosition) 2 s = -1
  · rw [if_pos hc]
    dsimp only
    have hfresh : GAME_POSITION (toU8 s.basePosition) 2 ∉ s.projectiles :=
      (scan_at_neg_iff _ _).mp hc.2
    have h1 : Wf { s with projectiles :=
        s.projectiles ++ [GAME_POSITION (toU8 s.basePosition) 2] } := by
      obtain ⟨w1, w2, w3, w4, w5, w6, w7⟩ := h
      refine ⟨w1, w2, nodup_append_fresh w3 hfresh, w4, ?_, w6, w7⟩
      intro p hp
      rcases List.mem_append.mp hp with hp | hp
      · exact w5 p hp
      · rw [List.mem_singleton.mp hp]
        exact GAME_POSITION_lt _ _
    obtain ⟨a1, p1, b1⟩ := check_asteroid_hit_parts
      ((s.projectiles.length : Int))
      (asteroid_at (toU8 s.basePosition) 2
        { s with projectiles :=
          s.projectiles ++ [GAME_POSITION (toU8 s.basePosition) 2] })
      { s with projectiles :=
        s.projectiles ++ [GAME_POSITION (toU8 s.basePosition) 2] }
    exact wf_of_sub a1 p1 b1 h1
  · rw [if_neg hc]; exact h

theorem wf_advance_projectiles {s : GameState} (cfg : Config)
    (rng : Nat → Nat) (k : Nat) (h : Wf s) :
    Wf (advance_projectiles cfg rng k s).1 := by
  unfold advance_projectiles
  obtain ⟨w1, w2, w3, w4, w5, w6, w7⟩ := h
  obtain ⟨g1, g2, g3, g4⟩ := projectilesLoop_inv s.projectiles.length []
    s.projectiles s rfl (le_refl _)
    ⟨List.nodup_nil, w3, by intro p hp; simp at hp, w5,
      by intro a ha; simp at ha⟩
  simp only [List.length_nil] at g1 g2 g3 g4
  obtain ⟨m1, m2, m3, m4, m5⟩ := add_missing_asteroids_wf cfg rng k
    (projectilesLoop s.projectiles.length 0 s)
    (w1.sublist g3) (w2.sublist g3) (fun p hp => w4 p (g3.mem hp))
  refine ⟨m1, m2, ?_, m3, ?_, ?_, ?_⟩
  · rw [m4]; exact g1
  · rw [m4]; exact g2
  · rw [m5, g4]; exact w6
  · rw [m5, g4]; exact w7

theorem wf_advance_asteroids {s : GameState} (cfg : Config)
    (rng : Nat → Nat) (k : Nat) (h : Wf s) :
    Wf (advance_asteroids cfg rng k s).1 := by
  unfold advance_asteroids
  obtain ⟨w1, w2, w3, w4, w5, w6, w7⟩ := h
  obtain ⟨g1, g2, g3, g4, g5⟩ := asteroidsLoop_inv s.asteroids.length []
    s.asteroids s rfl (le_refl _)
    ⟨List.Pairwise.nil, w1, List.nodup_nil, w2,
      by intro p hp; simp at hp, w4,
      by intro a ha; simp at ha, by intro a ha; simp at ha⟩
  simp only [List.length_nil] at g1 g2 g3 g4 g5
  have hwfMid : Wf (asteroidsLoop s.asteroids.length 0 s) := by
    refine ⟨g1, g2, w3.sublist g4, g3,
      fun p hp => w5 p (g4.mem hp), ?_, ?_⟩
    · rw [g5]; exact w6
    · rw [g5]; exact w7
  have hwfB := wf_check_all_base_hits hwfMid
  obtain ⟨b1, b2, b3, b4, b5, b6, b7⟩ := hwfB
  obtain ⟨m1, m2, m3, m4, m5⟩ := add_missing_asteroids_wf cfg rng k
    (check_all_base_hits (asteroidsLoop s.asteroids.length 0 s)) b1 b2 b4
  refine ⟨m1, m2, ?_, m3, ?_, ?_, ?_⟩
  · rw [m4]; exact b3
  · rw [m4]; exact b5
  · rw [m5]; exact b6
  · rw [m5]; exact b7

/-- Every reachable state satisfies the engine invariant. -/
theorem reachable_wf {cfg : Config} {s : GameState}
    (h : Reachable cfg s) : Wf s := by
  induction h with
  | init rng k s0 => exact initialise_game_wf cfg rng k s0
  | move d _ hd ih => exact wf_move_base ih hd
  | fire _ ih => exact wf_fire_projectile cfg ih
  | advP rng k _ ih => exact wf_advance_projectiles cfg rng k ih
  | advA rng k _ ih => exact wf_advance_asteroids cfg rng k ih

/- ### Claim C2: sorted asteroid order in every reachable state -/

/-- C2.  In every reachable state — immediately after `initialise_game`
and after every subsequent public operation — the live asteroid list is
sorted by non-decreasing y.  (Replenishment spawns only in the top row
`y = 15`, which keeps appends in order.) -/
theorem claim2_asteroids_sorted {cfg : Config} {s : GameState}
    (h : Reachable cfg s) : SortedY s.asteroids :=
  (reachable_wf h).1

/-- Witness for C2: the state reached by initialising with one asteroid
capacity and the all-zero RNG stream. -/
theorem claim2_asteroids_sorted_witness :
    SortedY ((initialise_game ⟨1, 1⟩ (fun _ => 0) 0
      ⟨0, [], [], 0, 3, 0⟩).1).asteroids :=
  claim2_asteroids_sorted (Reachable.init (fun _ => 0) 0 ⟨0, [], [], 0, 3, 0⟩)

/- ### Claim C4: no duplicate occupancy in every reachable state -/

/-- C4.  In every reachable state, no two live asteroids share a packed
position and no two live projectiles share a packed position. -/
theorem claim4_no_duplicate_positions {cfg : Config} {s : GameState}
    (h : Reachable cfg s) : s.asteroids.Nodup ∧ s.projectiles.Nodup :=
  ⟨(reachable_wf h).2.1, (reachable_wf h).2.2.1⟩

/-- Witness for C4: a three-asteroid initial state reached with the
identity RNG stream, followed by one fired projectile. -/
theorem claim4_no_duplicate_positions_witness :
    (fire_projectile ⟨3, 2⟩ (initialise_game ⟨3, 2⟩ (fun n => n) 0
      ⟨0, [], [], 0, 3, 0⟩).1).2.asteroids.Nodup ∧
    (fire_projectile ⟨3, 2⟩ (initialise_game ⟨3, 2⟩ (fun n => n) 0
      ⟨0, [], [], 0, 3, 0⟩).1).2.projectiles.Nodup :=
  claim4_no_duplicate_positions
    (Reachable.fire (Reachable.init (fun n => n) 0 ⟨0, [], [], 0, 3, 0⟩))

/- ### Claim C1: replenishment after public operations -/

theorem remove_asteroid_length_le (i : Int) (s : GameState) :
    (remove_asteroid i s).asteroids.length ≤ s.asteroids.length := by
  unfold remove_asteroid
  split
  · exact le_refl _
  · show (s.asteroids.eraseIdx i.toNat).length ≤ s.asteroids.length
    rw [List.length_eraseIdx]
    split <;> omega

theorem check_asteroid_hit_asteroids_le (pi ai : Int) (s : GameState) :
    (check_asteroid_hit pi ai s).2.asteroids.length ≤
      s.asteroids.length := by
  rcases check_asteroid_hit_cases pi ai s with ⟨hc, _⟩ | ⟨hc, _, _⟩ <;>
    rw [hc]
  show (remove_asteroid ai
    (remove_projectile pi s)).asteroids.length ≤ s.asteroids.length
  have := remove_asteroid_length_le ai (remove_projectile pi s)
  rw [remove_projectile_asteroids] at this
  exact this

theorem asteroidsLoop_asteroids_le : ∀ (fuel i : Nat) (s : GameState),
    (asteroidsLoop fuel i s).asteroids.length ≤ s.asteroids.length := by
  intro fuel
  induction fuel with
  | zero => intro i s; exact le_refl _
  | succ fuel ih =>
    intro i s
    rw [asteroidsLoop]
    split
    · dsimp only
      split
      · exact (ih _ _).trans (remove_asteroid_length_le _ _)
      · split
        · exact (ih _ _).trans (check_asteroid_hit_asteroids_le _ _ _)
        · refine (ih _ _).trans ?_
          show (s.asteroids.set _ _).length ≤ _
          rw [List.length_set]
    · exact le_refl _

theorem projectilesLoop_asteroids_le : ∀ (fuel i : Nat) (s : GameState),
    (projectilesLoop fuel i s).asteroids.length ≤ s.asteroids.length := by
  intro fuel
  induction fuel with
  | zero => intro i s; exact le_refl _
  | succ fuel ih =>
    intro i s
    rw [projectilesLoop]
    split
    · dsimp only
      split
      · refine (ih _ _).trans ?_
        rw [remove_projectile_asteroids]
      · split
        · exact (ih _ _).trans (check_asteroid_hit_asteroids_le _ _ _)
        · exact ih _ _
    · exact le_refl _

/-- Bool-valued success trace of one replenishment pass: every
`add_asteroid_in_rows` call during `add_missing_asteroids` appends an
asteroid (its spawn search finds a free cell within the attempt cap). -/
def amaSucceeds (cfg : Config) (rng : Nat → Nat) :
    Nat → Nat → GameState → Bool
  | 0, _, _ => true
  | m + 1, k, s =>
    ((add_asteroid_in_rows cfg (FIELD_HEIGHT - 1) rng k
        s).1.asteroids.length == s.asteroids.length + 1) &&
    amaSucceeds cfg rng m
      (add_asteroid_in_rows cfg (FIELD_HEIGHT - 1) rng k s).2
      (add_asteroid_in_rows cfg (FIELD_HEIGHT - 1) rng k s).1

theorem amaLoop_of_succeeds (cfg : Config) (rng : Nat → Nat) :
    ∀ (m k : Nat) (s : GameState), amaSucceeds cfg rng m k s = true →
    (amaLoop cfg rng m k s).1.asteroids.length =
      s.asteroids.length + m := by
  intro m
  induction m with
  | zero => intro k s _; rfl
  | succ m ih =>
    intro k s h
    rw [amaSucceeds, Bool.and_eq_true, beq_iff_eq] at h
    rw [amaLoop]
    rw [ih _ _ h.2, h.1]
    omega

/-- Counterexample to C1 as stated: `move_base` destroys an asteroid via
the base-hit check but performs no replenishment, so with capacity 2,
lives remaining, and only one asteroid alive at return, `numAsteroids`
is 1, not `MAX_ASTEROIDS`. -/
theorem claim1_move_base_no_replenish_counterexample :
    (Config.mk 2 4).maxAsteroids = 2 ∧
    (move_base 1 ⟨3, [], [GAME_POSITION 4 1, 15], 0, 3, 0⟩).1 = true ∧
    (move_base 1 ⟨3, [], [GAME_POSITION 4 1, 15], 0, 3, 0⟩).2.asteroids
      = [15] ∧
    0 < (move_base 1 ⟨3, [], [GAME_POSITION 4 1, 15], 0, 3, 0⟩).2.lives := by
  decide

/-- C1 (amended).  Only `advance_projectiles` and `advance_asteroids`
replenish: each ends with `add_missing_asteroids`, and whenever every
spawn search in that final call succeeds (and the pre-state respects the
capacity bound), `numAsteroids` equals `MAX_ASTEROIDS` on return.
`move_base` and `fire_projectile` never replenish. -/
theorem claim1_replenishment_amended (cfg : Config) (rng : Nat → Nat)
    (k : Nat) (s : GameState)
    (hcap : s.asteroids.length ≤ cfg.maxAsteroids) :
    (amaSucceeds cfg rng
        (cfg.maxAsteroids - (check_all_base_hits
          (asteroidsLoop s.asteroids.length 0 s)).asteroids.length) k
        (check_all_base_hits (asteroidsLoop s.asteroids.length 0 s)) =
          true →
      (advance_asteroids cfg rng k s).1.asteroids.length =
        cfg.maxAsteroids) ∧
    (amaSucceeds cfg rng
        (cfg.maxAsteroids -
          (projectilesLoop s.projectiles.length 0 s).asteroids.length) k
        (projectilesLoop s.projectiles.length 0 s) = true →
      (advance_projectiles cfg rng k s).1.asteroids.length =
        cfg.maxAsteroids) := by
  constructor
  · intro h
    have hmid : (check_all_base_hits
        (asteroidsLoop s.asteroids.length 0 s)).asteroids.length ≤
        cfg.maxAsteroids := by
      have h1 := (check_all_base_hits_parts
        (asteroidsLoop s.asteroids.length 0 s)).1.length_le
      have h2 := asteroidsLoop_asteroids_le s.asteroids.length 0 s
      omega
    unfold advance_asteroids add_missing_asteroids
    rw [amaLoop_of_succeeds cfg rng _ k _ h]
    omega
  · intro h
    have hmid : (projectilesLoop s.projectiles.length 0 s).asteroids.length
        ≤ cfg.maxAsteroids := by
      have h2 := projectilesLoop_asteroids_le s.projectiles.length 0 s
      omega
    unfold advance_projectiles add_missing_asteroids
    rw [amaLoop_of_succeeds cfg rng _ k _ h]
    omega

/-- Witness for C1 (amended): starting from an empty board with capacity
1, both advance operations end with a full asteroid list. -/
theorem claim1_replenishment_amended_witness :
    (advance_asteroids ⟨1, 1⟩ (fun _ => 0) 0
      ⟨3, [], [], 0, 3, 0⟩).1.asteroids.length = 1 ∧
    (advance_projectiles ⟨1, 1⟩ (fun _ => 0) 0
      ⟨3, [], [], 0, 3, 0⟩).1.asteroids.length = 1 :=
  ⟨(claim1_replenishment_amended ⟨1, 1⟩ (fun _ => 0) 0
      ⟨3, [], [], 0, 3, 0⟩ (by decide)).1 (by decide),
   (claim1_replenishment_amended ⟨1, 1⟩ (fun _ => 0) 0
      ⟨3, [], [], 0, 3, 0⟩ (by decide)).2 (by decide)⟩

/- ### Claim C3: the spawn sampling loop -/

/-- The x coordinate of the `t`-th sample of one spawn search starting at
RNG cursor `k`. -/
def sampleX (rng : Nat → Nat) (k t : Nat) : Nat :=
  rng (k + 2 * t) % FIELD_WIDTH

/-- The y coordinate of the `t`-th sample of one spawn search starting at
RNG cursor `k`. -/
def sampleY (rows : Nat) (rng : Nat → Nat) (k t : Nat) : Nat :=
  rows + rng (k + 2 * t + 1) % (FIELD_HEIGHT - rows)

theorem sampleX_shift (rng : Nat → Nat) (k t : Nat) :
    sampleX rng (k + 2) t = sampleX rng k (t + 1) := by
  unfold sampleX
  rw [show k + 2 + 2 * t = k + 2 * (t + 1) from by omega]

theorem sampleY_shift (rows : Nat) (rng : Nat → Nat) (k t : Nat) :
    sampleY rows rng (k + 2) t = sampleY rows rng k (t + 1) := by
  unfold sampleY
  rw [show k + 2 + 2 * t + 1 = k + 2 * (t + 1) + 1 from by omega]

theorem sampleX_zero (rng : Nat → Nat) (k : Nat) :
    sampleX rng k 0 = rng k % FIELD_WIDTH := by
  unfold sampleX
  rw [show k + 2 * 0 = k from by omega]

theorem sampleY_zero (rows : Nat) (rng : Nat → Nat) (k : Nat) :
    sampleY rows rng k 0 = rows + rng (k + 1) % (FIELD_HEIGHT - rows) := by
  unfold sampleY
  rw [show k + 2 * 0 + 1 = k + 1 from by omega]

/-- If every sample within the fuel budget hits an occupied cell, the
sampling loop returns the state unchanged, having consumed two RNG values
per attempt. -/
theorem spawnLoop_all_occupied (rows : Nat) (rng : Nat → Nat) :
    ∀ (fuel k : Nat) (s : GameState),
    (∀ t, t < fuel →
      asteroid_at (sampleX rng k t) (sampleY rows rng k t) s ≠ -1) →
    spawnLoop rows rng fuel k s = (s, k + 2 * fuel) := by
  intro fuel
  induction fuel with
  | zero => intro k s _; rw [show k + 2 * 0 = k from by omega]; rfl
  | succ fuel ih =>
    intro k s h
    have h0 := h 0 (by omega)
    rw [sampleX_zero, sampleY_zero] at h0
    rw [spawnLoop, if_neg h0]
    rw [ih (k + 2) s]
    · rw [show k + 2 + 2 * fuel = k + 2 * (fuel + 1) from by omega]
    · intro t ht
      rw [sampleX_shift, sampleY_shift]
      exact h (t + 1) (by omega)

/-- If the `t`-th sample is the first free one within the fuel budget,
the loop appends a new asteroid there and stops. -/
theorem spawnLoop_first_free (rows : Nat) (rng : Nat → Nat) :
    ∀ (fuel t k : Nat) (s : GameState), t < fuel →
    asteroid_at (sampleX rng k t) (sampleY rows rng k t) s = -1 →
    (∀ u, u < t →
      asteroid_at (sampleX rng k u) (sampleY rows rng k u) s ≠ -1) →
    spawnLoop rows rng fuel k s =
      ({ s with asteroids := s.asteroids ++
        [GAME_POSITION (sampleX rng k t) (sampleY rows rng k t)] },
       k + 2 * t + 2) := by
  intro fuel
  induction fuel with
  | zero => intro t k s ht; omega
  | succ fuel ih =>
    intro t k s ht hfree hocc
    cases t with
    | zero =>
      rw [sampleX_zero, sampleY_zero] at hfree
      rw [spawnLoop, if_pos hfree]
      rw [show k + 2 * 0 + 2 = k + 2 from by omega,
        sampleX_zero, sampleY_zero]
    | succ t =>
      have h0 := hocc 0 (by omega)
      rw [sampleX_zero, sampleY_zero] at h0
      rw [spawnLoop, if_neg h0]
      rw [ih t (k + 2) s (by omega)
        (by rw [sampleX_shift, sampleY_shift]; exact hfree)
        (by
          intro u hu
          rw [sampleX_shift, sampleY_shift]
          exact hocc (u + 1) (by omega))]
      rw [sampleX_shift, sampleY_shift,
        show k + 2 + 2 * t + 2 = k + 2 * (t + 1) + 2 from by omega]

/-- Counterexample to C3 as stated: the `do`-`while` guard
`attempts <= 8*16` permits a 129th sampling attempt.  With an RNG stream
whose first 256 values are 0 and later values 1, every one of the first
128 samples of a top-row spawn hits the lone asteroid at packed position
15, yet the call still changes the state: the 129th attempt succeeds and
appends an asteroid at packed position 31 — contradicting "after at most
128 sampling attempts ... returns with no state change". -/
theorem claim3_spawn_cap_counterexample :
    ((List.range 128).all (fun t =>
      decide (asteroid_at (sampleX (fun n => if n < 256 then 0 else 1) 0 t)
        (sampleY 15 (fun n => if n < 256 then 0 else 1) 0 t)
        ⟨3, [], [15], 0, 3, 0⟩ ≠ -1)) = true) ∧
    (add_asteroid_in_rows ⟨2, 1⟩ 15 (fun n => if n < 256 then 0 else 1) 0
      ⟨3, [], [15], 0, 3, 0⟩).1.asteroids = [15, 31] ∧
    (add_asteroid_in_rows ⟨2, 1⟩ 15 (fun n => if n < 256 then 0 else 1) 0
      ⟨3, [], [15], 0, 3, 0⟩).2 = 258 := by
  decide

/-- C3 (amended).  One call of `add_asteroid_in_rows(minY)` with the list
below capacity samples uniformly random cells with `y ∈ [minY, 16)` and
stops at the first free cell, appending the new asteroid there; the
attempt cap is 129 = 8×FIELD_HEIGHT + 1 samples (the `do`-`while` guard
`attempts <= 8*16` runs the body once per attempt value 0..128), after
which it returns with no state change and no error surfaced.  At full
capacity it returns immediately. -/
theorem claim3_spawn_loop_amended (cfg : Config) (rows : Nat)
    (rng : Nat → Nat) (k : Nat) (s : GameState)
    (hrows : rows < FIELD_HEIGHT) :
    (s.asteroids.length = cfg.maxAsteroids →
      add_asteroid_in_rows cfg rows rng k s = (s, k)) ∧
    (s.asteroids.length ≠ cfg.maxAsteroids →
      ((∀ t, t < 129 →
          asteroid_at (sampleX rng k t) (sampleY rows rng k t) s ≠ -1) →
        add_asteroid_in_rows cfg rows rng k s = (s, k + 258)) ∧
      (∀ t, t < 129 →
        asteroid_at (sampleX rng k t) (sampleY rows rng k t) s = -1 →
        (∀ u, u < t →
          asteroid_at (sampleX rng k u) (sampleY rows rng k u) s ≠ -1) →
        add_asteroid_in_rows cfg rows rng k s =
          ({ s with asteroids := s.asteroids ++
            [GAME_POSITION (sampleX rng k t) (sampleY rows rng k t)] },
           k + 2 * t + 2) ∧
        rows ≤ sampleY rows rng k t ∧ sampleY rows rng k t < FIELD_HEIGHT ∧
        sampleX rng k t < FIELD_WIDTH)) := by
  refine ⟨fun hfull => ?_, fun hnot => ⟨fun hocc => ?_, ?_⟩⟩
  · unfold add_asteroid_in_rows
    rw [if_pos hfull]
  · unfold add_asteroid_in_rows
    rw [if_neg hnot, spawnLoop_all_occupied rows rng 129 k s hocc]
  · intro t ht hfree hocc
    refine ⟨?_, ?_, ?_, ?_⟩
    · unfold add_asteroid_in_rows
      rw [if_neg hnot, spawnLoop_first_free rows rng 129 t k s ht hfree hocc]
    · unfold sampleY; omega
    · unfold sampleY
      have : rng (k + 2 * t + 1) % (FIELD_HEIGHT - rows) <
          FIELD_HEIGHT - rows :=
        Nat.mod_lt _ (by simp only [FIELD_HEIGHT] at hrows ⊢; omega)
      simp only [FIELD_HEIGHT] at this ⊢
      omega
    · unfold sampleX
      exact Nat.mod_lt _ (by simp only [FIELD_WIDTH]; omega)

/-- Witness for C3 (amended): on an empty board with the all-zero RNG
stream, the very first sample `(0, 15)` is free and gets appended. -/
theorem claim3_spawn_loop_amended_witness :
    add_asteroid_in_rows ⟨2, 1⟩ 15 (fun _ => 0) 0 ⟨3, [], [], 0, 3, 0⟩ =
      (⟨3, [], [GAME_POSITION (sampleX (fun _ => 0) 0 0)
        (sampleY 15 (fun _ => 0) 0 0)], 0, 3, 0⟩, 2) ∧
    15 ≤ sampleY 15 (fun _ => 0) 0 0 ∧
    sampleY 15 (fun _ => 0) 0 0 < FIELD_HEIGHT ∧
    sampleX (fun _ => 0) 0 0 < FIELD_WIDTH :=
  ((claim3_spawn_loop_amended ⟨2, 1⟩ 15 (fun _ => 0) 0
      ⟨3, [], [], 0, 3, 0⟩ (by decide)).2 (by decide)).2 0 (by decide)
    (by decide) (by omega)

example : GAME_POSITION 3 2 = 50 := by decide

example : scan_at [50] 50 = 0 := by decide

example : (fire_projectile ⟨2, 2⟩ ⟨3, [], [50], 0, 3, 0⟩) =
    (true, ⟨3, [], [], 1, 3, 0⟩) := by decide

example : (move_base 1 ⟨3, [], [GAME_POSITION 4 1, 15], 0, 3, 0⟩).2 =
    ⟨4, [], [15], 0, 2, 0⟩ := by decide

example : sortIter 4 1 [50, 3, 17, 20] = [17, 50, 3, 20] := by decide
